import Mathlib

/-!
Shallow embedding of the spike cache simulator (riscv/cachesim.h, riscv/cachesim.cc)
and proofs about its replacement policies.

Machine integers are modelled as `Nat` with explicit masking where the C++ code
relies on 64-bit wraparound; `uint64_t` values occurring here are all below
`2 ^ 64` by construction, and hypotheses state this where a proof needs it.
Undefined behaviour (modulo by zero, null-pointer dereference) is modelled as
`Option.none`.
-/

/-- Bit 63 of a tag word: the VALID bit (`cachesim.h`). -/
def VALID : Nat := 2 ^ 63

/-- Bit 62 of a tag word: the DIRTY bit (`cachesim.h`). -/
def DIRTY : Nat := 2 ^ 62

/-- Bitwise NOT of a 64-bit word, as C++ computes `~m` for `uint64_t m`
(all bits below 64 flipped). -/
def not64 (m : Nat) : Nat := (2 ^ 64 - 1) ^^^ m

/-- One step of the 32-bit LFSR (`lfsr_t::next`):
`reg = (reg >> 1) ^ (-(reg & 1) & 0xd0000001)`.  For `r < 2 ^ 32` the result is
again below `2 ^ 32`. -/
def lfsr_next (r : Nat) : Nat :=
  (r >>> 1) ^^^ (if r &&& 1 = 1 then 0xd0000001 else 0)

/-- The seven statistics counters of `cache_sim_t`. -/
structure stats_t where
  read_accesses : Nat
  read_misses : Nat
  bytes_read : Nat
  write_accesses : Nat
  write_misses : Nat
  bytes_written : Nat
  writebacks : Nat
deriving DecidableEq, Repr

/-- One call issued to the downstream miss handler:
`miss_handler->access(addr, bytes, store)`. -/
structure dcall_t where
  addr : Nat
  bytes : Nat
  store : Bool
deriving DecidableEq, Repr

/-- The state of a `cache_sim_t`, parameterized by the extra per-policy state `ε`
(`Unit` for the default random policy, the eviction-cursor map for the linear
policy, the Hawkeye bookkeeping for Hawkeye).  The tag array is flattened as in
the source: slot `way` of set `idx` lives at index `idx * ways + way`. -/
structure cache_state (ε : Type) where
  sets : Nat
  ways : Nat
  linesz : Nat
  idx_shift : Nat
  tags : List Nat
  stats : stats_t
  lfsr : Nat
  ext : ε
deriving DecidableEq, Repr

/-- One event handed to `cache_sim_t::access`; `pc` is the value
`proc->get_state()->pc` would yield at that moment (read only by Hawkeye). -/
structure mem_access_t where
  addr : Nat
  bytes : Nat
  store : Bool
  pc : Nat
deriving DecidableEq, Repr

/-- The linear scan of `cache_sim_t::check_tag`: the first way `i` of the indexed
set with `tag == (tags[idx*ways + i] & ~DIRTY)`, returned as the absolute slot
index (the C++ function returns a pointer to that slot). -/
def cache_sim_check_tag {ε : Type} (s : cache_state ε) (addr : Nat) : Option Nat :=
  let idx := (addr >>> s.idx_shift) &&& (s.sets - 1)
  let tag := (addr >>> s.idx_shift) ||| VALID
  ((List.range s.ways).find? fun i =>
      tag == (s.tags.getD (idx * s.ways + i) 0 &&& not64 DIRTY)).map
    fun i => idx * s.ways + i

/-- The `check_tag` hook of the base (random) and linear policies: no state
change, just the scan.  The `pc` argument mirrors the processor hook and is
unused here. -/
def base_check_tag {ε : Type} (s : cache_state ε) (pc addr : Nat) :
    cache_state ε × Option Nat :=
  (s, cache_sim_check_tag s addr)

/-- Set the DIRTY bit of a tag slot, as `*hit_way |= DIRTY` does through the
pointer returned by `check_tag`. -/
def set_dirty {ε : Type} (s : cache_state ε) (p : Nat) : cache_state ε :=
  { s with tags := s.tags.set p (s.tags.getD p 0 ||| DIRTY) }

/-- `cache_sim_t::victimize`: pick way `lfsr.next() % ways`, replace that slot of
the indexed set with the new tag (VALID, clean), return the displaced word.
`ways = 0` makes `lfsr.next() % ways` a modulo by zero (undefined behaviour),
modelled as `none`. -/
def cache_sim_victimize (s : cache_state Unit) (pc addr : Nat) :
    Option (cache_state Unit × Nat) :=
  if s.ways = 0 then none
  else
    let idx := (addr >>> s.idx_shift) &&& (s.sets - 1)
    let r := lfsr_next s.lfsr
    let way := r % s.ways
    let victim := s.tags.getD (idx * s.ways + way) 0
    some ({ s with
              lfsr := r,
              tags := s.tags.set (idx * s.ways + way) ((addr >>> s.idx_shift) ||| VALID) },
          victim)

/-- Look up key `k` in an association list, defaulting to `d`. -/
def assoc_getD (m : List (Nat × Nat)) (k d : Nat) : Nat :=
  match m.find? (fun e => e.1 == k) with
  | some e => e.2
  | none => d

/-- Update (or insert) key `k` in an association list. -/
def assoc_set : List (Nat × Nat) → Nat → Nat → List (Nat × Nat)
  | [], k, v => [(k, v)]
  | e :: m, k, v => if e.1 = k then (k, v) :: m else e :: assoc_set m k v

/-- `linear_evict_cache_sim_t::victimize`: the per-set cursor
`evict_candidate[idx]` picks the way (a fresh `std::map` entry reads as 0), then
advances by `(cursor + 1) % ways`.  `ways = 0` makes that a modulo by zero,
modelled as `none`. -/
def linear_evict_victimize (s : cache_state (List (Nat × Nat))) (pc addr : Nat) :
    Option (cache_state (List (Nat × Nat)) × Nat) :=
  if s.ways = 0 then none
  else
    let idx := (addr >>> s.idx_shift) &&& (s.sets - 1)
    let way := assoc_getD s.ext idx 0
    let victim := s.tags.getD (idx * s.ways + way) 0
    some ({ s with
              ext := assoc_set s.ext idx ((way + 1) % s.ways),
              tags := s.tags.set (idx * s.ways + way) ((addr >>> s.idx_shift) ||| VALID) },
          victim)

/-- The entry bump of `cache_sim_t::access`:
`store ? write_accesses++ : read_accesses++` and
`(store ? bytes_written : bytes_read) += bytes`. -/
def bump_access {ε : Type} (s : cache_state ε) (bytes : Nat) (store : Bool) :
    cache_state ε :=
  if store
  then { s with stats := { s.stats with
          write_accesses := s.stats.write_accesses + 1,
          bytes_written := s.stats.bytes_written + bytes } }
  else { s with stats := { s.stats with
          read_accesses := s.stats.read_accesses + 1,
          bytes_read := s.stats.bytes_read + bytes } }

/-- The miss-counter bump `store ? write_misses++ : read_misses++`. -/
def bump_miss {ε : Type} (s : cache_state ε) (store : Bool) : cache_state ε :=
  if store
  then { s with stats := { s.stats with write_misses := s.stats.write_misses + 1 } }
  else { s with stats := { s.stats with read_misses := s.stats.read_misses + 1 } }

/-- The post-victimize tail of `cache_sim_t::access`: when the victim is
VALID+DIRTY, issue the downstream writeback of
`(victim & ~(VALID|DIRTY)) << idx_shift` (only when a handler is wired) and
bump `writebacks`; then issue the downstream refill of `addr & ~(linesz-1)`.
Returns the updated state and the downstream calls in order. -/
def wb_and_refill {ε : Type} (s4 : cache_state ε) (victim : Nat) (mh : Bool)
    (addr : Nat) : cache_state ε × List dcall_t :=
  let wbpair :=
    if victim &&& (VALID ||| DIRTY) = VALID ||| DIRTY then
      ({ s4 with stats := { s4.stats with writebacks := s4.stats.writebacks + 1 } },
       if mh then [⟨(victim &&& not64 (VALID ||| DIRTY)) <<< s4.idx_shift, s4.linesz, true⟩]
       else [])
    else (s4, ([] : List dcall_t))
  (wbpair.1,
   wbpair.2 ++ (if mh then [⟨addr &&& not64 (wbpair.1.linesz - 1), wbpair.1.linesz, false⟩] else []))

/-- `cache_sim_t::access`, with the virtual hooks passed explicitly (the C++
dispatches them virtually); `mark_dirty` performs the `*ptr |= DIRTY` write
through the location that `check_tag` returned (the base tag array for the
array-backed policies, the map value for the fully-associative one).  Returns
the new state together with the list of calls issued to the downstream miss
handler, in order; `mh` says whether a downstream handler is wired.  The flow
is exactly the source's: bump the access/byte counters; `check_tag`; on a hit
set DIRTY when storing and return; otherwise bump the miss counter,
`victimize`, run the writeback/refill tail, and when storing re-run
`check_tag` and set DIRTY through the returned pointer (a null result there
would be dereferenced: `none`). -/
def cache_sim_access {ε : Type}
    (check_tag : cache_state ε → Nat → Nat → cache_state ε × Option Nat)
    (victimize : cache_state ε → Nat → Nat → Option (cache_state ε × Nat))
    (mark_dirty : cache_state ε → Nat → cache_state ε)
    (s : cache_state ε) (mh : Bool) (pc addr bytes : Nat) (store : Bool) :
    Option (cache_state ε × List dcall_t) :=
  match check_tag (bump_access s bytes store) pc addr with
  | (s2, some p) => some (if store then mark_dirty s2 p else s2, [])
  | (s2, none) =>
    match victimize (bump_miss s2 store) pc addr with
    | none => none
    | some (s4, victim) =>
      if store then
        match check_tag (wb_and_refill s4 victim mh addr).1 pc addr with
        | (s6, some p) => some (mark_dirty s6 p, (wb_and_refill s4 victim mh addr).2)
        | (_, none) => none
      else some ((wb_and_refill s4 victim mh addr).1, (wb_and_refill s4 victim mh addr).2)

/-- Run a list of accesses through `cache_sim_access`, dropping the downstream
traces. -/
def cache_sim_run {ε : Type}
    (check_tag : cache_state ε → Nat → Nat → cache_state ε × Option Nat)
    (victimize : cache_state ε → Nat → Nat → Option (cache_state ε × Nat))
    (mark_dirty : cache_state ε → Nat → cache_state ε)
    (mh : Bool) : cache_state ε → List mem_access_t → Option (cache_state ε)
  | s, [] => some s
  | s, a :: l =>
    match cache_sim_access check_tag victimize mark_dirty s mh a.pc a.addr a.bytes a.store with
    | none => none
    | some (s1, _) => cache_sim_run check_tag victimize mark_dirty mh s1 l

/-- The validation performed by `cache_sim_t::init` (lines 52-57): `help()` — a
fatal usage error — fires unless this predicate holds.  Note that only `sets`
and `linesz` are examined; `ways` is never validated. -/
def init_valid (sets linesz : Nat) : Bool :=
  !(sets == 0 || (sets &&& (sets - 1)) != 0) &&
  !(linesz < 8 || (linesz &&& (linesz - 1)) != 0)

/-- The loop of `cache_sim_t::init` computing `idx_shift`:
`for (x = linesz; x > 1; x >>= 1) idx_shift++` — the number of halvings of `x`
until it drops to 1 or 0.  The first argument is fuel; since each iteration
halves `x`, `x` itself bounds the iteration count. -/
def idx_shift_loop : Nat → Nat → Nat
  | 0, _ => 0
  | fuel + 1, x => if 1 < x then idx_shift_loop fuel (x >>> 1) + 1 else 0

/-- `idx_shift` as `cache_sim_t::init` computes it from `linesz`. -/
def idx_shift_of (linesz : Nat) : Nat := idx_shift_loop linesz linesz

/-- A freshly constructed cache: `init` zeroes the tag array and all counters;
the LFSR is seeded to 1; `idx_shift` comes from `idx_shift_of`. -/
def cache_sim_init {ε : Type} (sets ways linesz : Nat) (ext : ε) : cache_state ε :=
  { sets := sets, ways := ways, linesz := linesz,
    idx_shift := idx_shift_of linesz,
    tags := List.replicate (sets * ways) 0,
    stats := ⟨0, 0, 0, 0, 0, 0, 0⟩,
    lfsr := 1,
    ext := ext }

/-- The four concrete policies `cache_sim_t::construct` can instantiate. -/
inductive policy_kind
  | linear_evict
  | hawkeye
  | fa
  | random
deriving DecidableEq, Repr

/-- The policy selection of `cache_sim_t::construct` (lines 43-49): `type` is
the text after the third `:` of the config string, when present.  An explicit
`linear` or `hawkeye` wins; otherwise `ways > 4 && sets == 1` selects the
fully-associative variant; otherwise the default random-evict class. -/
def construct_policy (sets ways : Nat) (type : Option String) : policy_kind :=
  if type = some "linear" then .linear_evict
  else if type = some "hawkeye" then .hawkeye
  else if 4 < ways ∧ sets = 1 then .fa
  else .random

/-- The S5 input sequence of the spec's end-to-end table. -/
def scenario_S5 : List mem_access_t :=
  [⟨0, 8, false, 0⟩, ⟨0, 8, true, 0⟩, ⟨0, 8, false, 0⟩]

/-- Look up key `k` in an ordered map modelled as an association list sorted by
key (`std::map` iteration order is ascending key order). -/
def map_find? {α : Type} (m : List (Nat × α)) (k : Nat) : Option α :=
  (m.find? (fun e => e.1 == k)).map (fun e => e.2)

/-- Insert-or-assign for the sorted association list (`m[k] = v`). -/
def map_insert {α : Type} : List (Nat × α) → Nat → α → List (Nat × α)
  | [], k, v => [(k, v)]
  | e :: m, k, v =>
    if k < e.1 then (k, v) :: e :: m
    else if k = e.1 then (k, v) :: m
    else e :: map_insert m k v

/-- Erase key `k` from the association list (`m.erase(k)`). -/
def map_erase {α : Type} : List (Nat × α) → Nat → List (Nat × α)
  | [], _ => []
  | e :: m, k => if e.1 = k then m else e :: map_erase m k

/-- Modify the value stored at key `k` in place. -/
def map_update {α : Type} (m : List (Nat × α)) (k : Nat) (f : α → α) : List (Nat × α) :=
  m.map (fun e => if e.1 = k then (e.1, f e.2) else e)

/-- `fa_cache_sim_t::check_tag`: a map lookup on `addr >> idx_shift`; the
returned location is the key of the entry whose value the C++ pointer
addresses.  The map lives in `ext`; the base tag array is shadowed and unused,
exactly as in the C++ subclass. -/
def fa_check_tag (s : cache_state (List (Nat × Nat))) (pc addr : Nat) :
    cache_state (List (Nat × Nat)) × Option Nat :=
  (s, (map_find? s.ext (addr >>> s.idx_shift)).map (fun _ => addr >>> s.idx_shift))

/-- The `*ptr |= DIRTY` write for the fully-associative cache: the pointer
aims at the map value stored under key `p`. -/
def fa_mark_dirty (s : cache_state (List (Nat × Nat))) (p : Nat) :
    cache_state (List (Nat × Nat)) :=
  { s with ext := map_update s.ext p (fun v => v ||| DIRTY) }

/-- `fa_cache_sim_t::victimize`: when the map is full (`size == ways`), remove
the entry at position `lfsr.next() % ways` in iteration (ascending-key) order
and remember its tag word; otherwise the victim stays 0.  Then insert the new
tag under key `addr >> idx_shift`.  With `ways = 0` the full branch advances
the begin iterator of an empty map — undefined behaviour, modelled `none`. -/
def fa_victimize (s : cache_state (List (Nat × Nat))) (pc addr : Nat) :
    Option (cache_state (List (Nat × Nat)) × Nat) :=
  let key := addr >>> s.idx_shift
  if s.ext.length = s.ways then
    if s.ways = 0 then none
    else
      let r := lfsr_next s.lfsr
      match s.ext.get? (r % s.ways) with
      | none => none
      | some e =>
        some ({ s with lfsr := r,
                       ext := map_insert (map_erase s.ext e.1) key (key ||| VALID) },
              e.2)
  else
    some ({ s with ext := map_insert s.ext key (key ||| VALID) }, 0)

/-- The copy constructor `cache_sim_t::cache_sim_t(const cache_sim_t&)`
(cachesim.cc lines 75-81): geometry fields and the tag array are copied (the
array by `memcpy` into a freshly allocated buffer), `log` is set false, and the
class member `lfsr`, absent from the initializer list, is default-constructed
back to its seed 1.  The seven statistics counters and the miss-handler
pointer are scalar members the constructor never writes, so they hold
indeterminate values; the explicit `junk` argument stands for whatever the
uninitialized memory contained. -/
def cache_sim_copy (rhs : cache_state Unit) (junk : stats_t) : cache_state Unit :=
  { sets := rhs.sets, ways := rhs.ways, linesz := rhs.linesz,
    idx_shift := rhs.idx_shift, tags := rhs.tags,
    stats := junk, lfsr := 1, ext := () }

/-- `MAX_RRPV` of `hawkeye_cache_sim_t` (cachesim.h): 3-bit RRPV maximum, 7. -/
def MAX_RRPV : Nat := 7

/-- Modelled from the spec: `optgen.h` is not under src/, so the OPTgen ring
size comes from the spec (section 4.4, a fixed-capacity ring buffer of
`OPTGEN_VECTOR_SIZE` occupancy counters).  The spec fixes no numeric value;
the claims below depend only on arithmetic modulo this constant. -/
def OPTGEN_VECTOR_SIZE : Nat := 128

/-- Modelled from the spec: the per-set timer advances modulo `TIMER_SIZE`
(spec section 3).  The spec fixes no numeric value; the claims below depend
only on arithmetic modulo this constant. -/
def TIMER_SIZE : Nat := 1024

/-- Modelled from the spec: the OPTgen engine of `optgen.h`, which is not
under src/.  Spec section 4.4: a per-set ring of `OPTGEN_VECTOR_SIZE`
occupancy counters with capacity `ways - 2`; `add_access` records that a
reference occurred at the given quantum (`num_accesses` is that record);
`should_cache` checks and fills the usage interval. -/
structure OPTgen where
  occupancy : List Nat
  cache_size : Nat
  num_accesses : Nat
deriving DecidableEq, Repr

/-- Modelled from the spec: `perset_optgen[i].init(ways-2)` — empty ring,
capacity `ways - 2`. -/
def OPTgen.init (cs : Nat) : OPTgen :=
  ⟨List.replicate OPTGEN_VECTOR_SIZE 0, cs, 0⟩

/-- Modelled from the spec: `add_access(curr_quanta)` records that a reference
occurred at this quantum. -/
def OPTgen.add_access (o : OPTgen) (curr_quanta : Nat) : OPTgen :=
  { o with num_accesses := o.num_accesses + 1 }

/-- The quanta strictly after `last` up to and including `curr`, with
wrap-around inside the `OPTGEN_VECTOR_SIZE` ring (spec section 4.4). -/
def quanta_interval (last curr : Nat) : List Nat :=
  if last < curr then List.range' (last + 1) (curr - last)
  else List.range' (last + 1) (OPTGEN_VECTOR_SIZE - (last + 1)) ++ List.range' 0 (curr + 1)

/-- Modelled from the spec: `should_cache(curr_quanta, last_quanta)` is true
iff every quantum in the interval `(last_quanta, curr_quanta]` has occupancy
strictly below capacity; on true the interval is additionally filled
(occupancy incremented at each quantum). -/
def OPTgen.should_cache (o : OPTgen) (curr last : Nat) : Bool × OPTgen :=
  let ival := quanta_interval last curr
  if ival.all (fun q => o.occupancy.getD q 0 < o.cache_size) then
    (true, { o with occupancy := ival.foldl (fun v q => v.set q (v.getD q 0 + 1)) o.occupancy })
  else (false, o)

/-- Modelled from the spec: the sampler entry `ADDR_INFO` of `optgen.h`
(not under src/): last access quantum, installing PC, cached prediction, and
LRU position within the per-set sampler. -/
structure ADDR_INFO where
  last_quanta : Nat
  PC : Nat
  prediction : Bool
  lru : Nat
deriving DecidableEq, Repr

/-- Modelled from the spec: a fresh sampler entry is inserted with
`lru = ways - 1` (spec section 4.6 step 3). -/
def ADDR_INFO.init (curr_quanta ways : Nat) : ADDR_INFO :=
  ⟨curr_quanta, 0, false, ways - 1⟩

/-- Modelled from the spec: `update(timer, PC, prediction)` refreshes the
entry with the current timestamp, PC and prediction. -/
def ADDR_INFO.update (a : ADDR_INFO) (timer pc : Nat) (pred : Bool) : ADDR_INFO :=
  { a with last_quanta := timer, PC := pc, prediction := pred }

/-- Modelled from the spec: `hawkeye_predictor.h` is not under src/.  The
predictor is a table of 3-bit saturating counters indexed by a hash of the PC
into a small power-of-two table (spec section 4.5, e.g. 8K entries). -/
def SHCT_SIZE : Nat := 8192

/-- Modelled from the spec: the hash indexing the predictor table. -/
def pc_hash (pc : Nat) : Nat := pc % SHCT_SIZE

/-- Modelled from the spec: `increment(PC)`, saturating toward 7.  The counter
table is an association list from hash to counter; absent entries read 0. -/
def predictor_increment (t : List (Nat × Nat)) (pc : Nat) : List (Nat × Nat) :=
  assoc_set t (pc_hash pc) (min (assoc_getD t (pc_hash pc) 0 + 1) 7)

/-- Modelled from the spec: `decrement(PC)`, saturating toward 0. -/
def predictor_decrement (t : List (Nat × Nat)) (pc : Nat) : List (Nat × Nat) :=
  assoc_set t (pc_hash pc) (assoc_getD t (pc_hash pc) 0 - 1)

/-- Modelled from the spec: `get_prediction(PC)` is true iff the counter is at
least the midpoint 4. -/
def predictor_get_prediction (t : List (Nat × Nat)) (pc : Nat) : Bool :=
  4 ≤ assoc_getD t (pc_hash pc) 0

/-- The extra state of `hawkeye_cache_sim_t` (cachesim.h): the RRPV and
signature grids (flattened as `set * ways + way`), the per-set timers, the
per-set OPTgen engines, the per-set sampler maps, and the shared PC
predictor.  `pred_log` and `check_calls` are ghost instrumentation recording,
respectively, each predictor training event `(is_increment, PC)` in order and
the number of `check_tag` invocations; they are written exactly where the C++
calls increment/decrement and enters `check_tag`, and are read by nothing. -/
structure hawk_ext where
  rrpv : List Nat
  signatures : List Nat
  perset_timer : List Nat
  perset_optgen : List OPTgen
  addr_history : List (List (Nat × ADDR_INFO))
  demand_predictor : List (Nat × Nat)
  pred_log : List (Bool × Nat)
  check_calls : Nat
deriving DecidableEq, Repr

/-- `hawkeye_cache_sim_t::replace_addr_history_element`: erase the first entry
(in ascending-key order) whose `lru` equals `ways - 1`; when none matches the
C++ erases key 0 (its `lru_addr` stays 0). -/
def replace_addr_history_element (ways : Nat) (m : List (Nat × ADDR_INFO)) :
    List (Nat × ADDR_INFO) :=
  map_erase m (match m.find? (fun e => e.2.lru == ways - 1) with
               | some e => e.1
               | none => 0)

/-- `hawkeye_cache_sim_t::update_addr_history_lru`: age every entry whose
`lru` is below `curr_lru`. -/
def update_addr_history_lru (m : List (Nat × ADDR_INFO)) (curr_lru : Nat) :
    List (Nat × ADDR_INFO) :=
  m.map (fun e => if e.2.lru < curr_lru then (e.1, { e.2 with lru := e.2.lru + 1 }) else e)

/-- The sampler/OPTgen/predictor half of `hawkeye_cache_sim_t::check_tag`
(cachesim.cc lines 317-370): train the predictor on a sampler hit (increment
iff not wrapped and OPTgen says the interval was cacheable — `should_cache` is
short-circuited away, and so does not fill, when wrapped), or insert a fresh
sampler entry (evicting the LRU-most one when full); record the OPTgen access;
refresh the entry with the current timer, PC and prediction and make it MRU;
advance the per-set timer.  Returns the updated extension together with
`new_prediction` (queried from the post-training predictor, as in the C++). -/
def hawk_sampler_update (s : cache_state hawk_ext) (pc addr : Nat) :
    hawk_ext × Bool :=
  let set := (addr >>> s.idx_shift) &&& (s.sets - 1)
  let E := s.ext
  let curr_quanta := E.perset_timer.getD set 0 % OPTGEN_VECTOR_SIZE
  let sampler_tag := (addr >>> s.idx_shift) ||| VALID
  let hist := E.addr_history.getD set []
  let og := E.perset_optgen.getD set (OPTgen.init (s.ways - 2))
  let E1 :=
    match map_find? hist sampler_tag with
    | some info =>
      let curr_timer0 := E.perset_timer.getD set 0
      let curr_timer := if curr_timer0 < info.last_quanta then curr_timer0 + TIMER_SIZE
                        else curr_timer0
      let wrap : Bool := OPTGEN_VECTOR_SIZE < curr_timer - info.last_quanta
      let sc := if wrap then (false, og)
                else og.should_cache curr_quanta (info.last_quanta % OPTGEN_VECTOR_SIZE)
      let E' :=
        if wrap = false ∧ sc.1 = true then
          { E with demand_predictor := predictor_increment E.demand_predictor info.PC,
                   pred_log := E.pred_log ++ [(true, info.PC)] }
        else
          { E with demand_predictor := predictor_decrement E.demand_predictor info.PC,
                   pred_log := E.pred_log ++ [(false, info.PC)] }
      { E' with
          perset_optgen := E'.perset_optgen.set set (sc.2.add_access curr_quanta),
          addr_history := E'.addr_history.set set (update_addr_history_lru hist info.lru) }
    | none =>
      let hist1 := if hist.length = s.ways then replace_addr_history_element s.ways hist
                   else hist
      let hist2 := map_insert hist1 sampler_tag (ADDR_INFO.init curr_quanta s.ways)
      { E with
          addr_history := E.addr_history.set set (update_addr_history_lru hist2 (s.ways - 1)),
          perset_optgen := E.perset_optgen.set set (og.add_access curr_quanta) }
  let new_prediction := predictor_get_prediction E1.demand_predictor pc
  let hist3 := map_update (E1.addr_history.getD set []) sampler_tag
      (fun a => { a.update (E.perset_timer.getD set 0) pc new_prediction with lru := 0 })
  ({ E1 with
      addr_history := E1.addr_history.set set hist3,
      perset_timer := E1.perset_timer.set set ((E.perset_timer.getD set 0 + 1) % TIMER_SIZE),
      check_calls := E1.check_calls + 1 },
   new_prediction)

/-- The tag-array scan at the end of `hawkeye_cache_sim_t::check_tag`
(cachesim.cc lines 372-392): find the hit way (the loop does not break, so the
last match wins), record the PC as its signature and set its RRPV to
`MAX_RRPV` when predicted cache-averse, 0 when friendly; on a miss nothing
changes (deferred to victimize). -/
def hawk_rrpv_fixup (s : cache_state hawk_ext) (E2 : hawk_ext) (new_prediction : Bool)
    (pc addr : Nat) : hawk_ext :=
  let set := (addr >>> s.idx_shift) &&& (s.sets - 1)
  let tag := (addr >>> s.idx_shift) ||| VALID
  match ((List.range s.ways).filter
      (fun i => tag == (s.tags.getD (set * s.ways + i) 0 &&& not64 DIRTY))).getLast? with
  | some w =>
    let E3 := { E2 with signatures := E2.signatures.set (set * s.ways + w) pc }
    if new_prediction = false then
      { E3 with rrpv := E3.rrpv.set (set * s.ways + w) MAX_RRPV }
    else
      { E3 with rrpv := E3.rrpv.set (set * s.ways + w) 0 }
  | none => E2

/-- `hawkeye_cache_sim_t::check_tag`: run the sampler update, then the RRPV
fix-up, and return the base-class tag lookup on the (unchanged) tag array. -/
def hawkeye_check_tag (s : cache_state hawk_ext) (pc addr : Nat) :
    cache_state hawk_ext × Option Nat :=
  let p := hawk_sampler_update s pc addr
  ({ s with ext := hawk_rrpv_fixup s p.1 p.2 pc addr }, cache_sim_check_tag s addr)

/-- `hawkeye_cache_sim_t::victimize` (cachesim.cc lines 229-284): prefer the
first way with `rrpv == MAX_RRPV` (replace it and return, touching nothing
else); otherwise evict the way with maximal RRPV (ties to the highest index),
record the current PC as the new signature, set the new RRPV from the
prediction (aging the friendly ways unless one sits at `MAX_RRPV - 1`), and
train the predictor negatively with `signatures[set][lru_victim]` — which was
just overwritten with the current PC.  `ways = 0` leaves `lru_victim` at -1
and indexes the tag array out of bounds: `none`. -/
def hawkeye_victimize (s : cache_state hawk_ext) (pc addr : Nat) :
    Option (cache_state hawk_ext × Nat) :=
  let set := (addr >>> s.idx_shift) &&& (s.sets - 1)
  let E := s.ext
  match (List.range s.ways).find? (fun i => E.rrpv.getD (set * s.ways + i) 0 == MAX_RRPV) with
  | some i =>
    some ({ s with tags := s.tags.set (set * s.ways + i) ((addr >>> s.idx_shift) ||| VALID) },
          s.tags.getD (set * s.ways + i) 0)
  | none =>
    if s.ways = 0 then none
    else
      let fold := (List.range s.ways).foldl
        (fun acc i => if acc.1 ≤ E.rrpv.getD (set * s.ways + i) 0
                      then (E.rrpv.getD (set * s.ways + i) 0, i) else acc)
        (0, 0)
      let w := fold.2
      let victim := s.tags.getD (set * s.ways + w) 0
      let tags2 := s.tags.set (set * s.ways + w) ((addr >>> s.idx_shift) ||| VALID)
      let new_prediction := predictor_get_prediction E.demand_predictor pc
      let E1 := { E with signatures := E.signatures.set (set * s.ways + w) pc }
      let E2 :=
        if new_prediction = false then
          { E1 with rrpv := E1.rrpv.set (set * s.ways + w) MAX_RRPV }
        else
          let r1 := E1.rrpv.set (set * s.ways + w) 0
          let saturated := (List.range s.ways).any
            (fun i => r1.getD (set * s.ways + i) 0 == MAX_RRPV - 1)
          let r2 := (List.range s.ways).foldl
            (fun r i => if saturated = false ∧ r.getD (set * s.ways + i) 0 < MAX_RRPV - 1
                        then r.set (set * s.ways + i) (r.getD (set * s.ways + i) 0 + 1)
                        else r) r1
          { E1 with rrpv := r2.set (set * s.ways + w) 0 }
      let key := E2.signatures.getD (set * s.ways + w) 0
      some ({ s with tags := tags2,
                     ext := { E2 with
                        demand_predictor := predictor_decrement E2.demand_predictor key,
                        pred_log := E2.pred_log ++ [(false, key)] } },
            victim)

/-- A freshly constructed `hawkeye_cache_sim_t`: RRPVs all `MAX_RRPV`,
signatures and timers zero, per-set OPTgen engines of capacity `ways - 2`,
empty samplers and predictor. -/
def hawkeye_init (sets ways linesz : Nat) : cache_state hawk_ext :=
  cache_sim_init sets ways linesz
    { rrpv := List.replicate (sets * ways) MAX_RRPV,
      signatures := List.replicate (sets * ways) 0,
      perset_timer := List.replicate sets 0,
      perset_optgen := List.replicate sets (OPTgen.init (ways - 2)),
      addr_history := List.replicate sets [],
      demand_predictor := [],
      pred_log := [],
      check_calls := 0 }

/-- A Hawkeye cache state used as a concrete input below: one set of two ways,
both cache-friendly (rrpv 0), with pre-eviction signatures 42 and 43. -/
def c1_state : cache_state hawk_ext :=
  { sets := 1, ways := 2, linesz := 8, idx_shift := 3, tags := [0, 0],
    stats := ⟨0, 0, 0, 0, 0, 0, 0⟩, lfsr := 1,
    ext := { rrpv := [0, 0], signatures := [42, 43],
             perset_timer := [0], perset_optgen := [OPTgen.init 0],
             addr_history := [[]], demand_predictor := [],
             pred_log := [], check_calls := 0 } }

/-- A Hawkeye cache state used as a concrete input below: one set of two
ways, empty tag array, both ways cache-averse (fresh RRPV 7), timer at 5, an
OPTgen record of 3 accesses, and line 0 already present in the sampler. -/
def c9_state : cache_state hawk_ext :=
  { sets := 1, ways := 2, linesz := 8, idx_shift := 3, tags := [0, 0],
    stats := ⟨0, 0, 0, 0, 0, 0, 0⟩, lfsr := 1,
    ext := { rrpv := [7, 7], signatures := [0, 0],
             perset_timer := [5], perset_optgen := [⟨List.replicate 128 0, 0, 3⟩],
             addr_history := [[(9223372036854775808, ⟨2, 9, false, 0⟩)]],
             demand_predictor := [], pred_log := [], check_calls := 0 } }

/-- The store access to line 0 (PC 9) on `c9_state`. -/
def c9_result : Option (cache_state hawk_ext × List dcall_t) :=
  cache_sim_access hawkeye_check_tag hawkeye_victimize set_dirty c9_state false 9 0 4 true

/-- A direct-mapped 1-set, 1-way, 8-byte-line cache holding one dirty line
(the state a fresh cache reaches after one store to address 0); used as a
concrete input below. -/
def c4_state : cache_state Unit :=
  ⟨1, 1, 8, 3, [13835058055282163712], ⟨0, 0, 0, 1, 1, 8, 0⟩, 3489660929, ()⟩

/-- A fresh direct-mapped random-policy cache (1 set, 1 way, 8-byte lines). -/
def c5_rand : cache_state Unit := cache_sim_init 1 1 8 ()

/-- The state of `c5_rand` after one read of address 0 (a compulsory miss that
installs line 0). -/
def c5_rand_s1 : cache_state Unit :=
  ((cache_sim_access base_check_tag cache_sim_victimize set_dirty c5_rand false 0 0 8
      false).getD (c5_rand, [])).1

/-- A fresh linear-evict cache (1 set, 1 way, 8-byte lines, empty cursor map). -/
def c5_lin : cache_state (List (Nat × Nat)) := cache_sim_init 1 1 8 []

/-- The state of `c5_lin` after one read of address 0. -/
def c5_lin_s1 : cache_state (List (Nat × Nat)) :=
  ((cache_sim_access base_check_tag linear_evict_victimize set_dirty c5_lin false 0 0 8
      false).getD (c5_lin, [])).1

/-- A fresh Hawkeye cache (1 set, 2 ways, 8-byte lines). -/
def c5_hawk : cache_state hawk_ext := hawkeye_init 1 2 8

/-- The state of `c5_hawk` after one read of address 0 (PC 5). -/
def c5_hawk_s1 : cache_state hawk_ext :=
  ((cache_sim_access hawkeye_check_tag hawkeye_victimize set_dirty c5_hawk false 5 0 4
      false).getD (c5_hawk, [])).1

/-- A fresh fully-associative cache (8 ways, 8-byte lines, empty map). -/
def c5_fa : cache_state (List (Nat × Nat)) := cache_sim_init 1 8 8 []

/-- The state of `c5_fa` after one read of address 0. -/
def c5_fa_s1 : cache_state (List (Nat × Nat)) :=
  ((cache_sim_access fa_check_tag fa_victimize fa_mark_dirty c5_fa false 0 0 8
      false).getD (c5_fa, [])).1

/-- The tag payload of a tag word: the stored line address bits, with the
VALID and DIRTY flag bits masked off. -/
def tag_payload (x : Nat) : Nat := x &&& not64 (VALID ||| DIRTY)

/-- Within any one set, no two slots with the VALID bit (bit 63) set hold the
same tag payload. -/
def tags_ok (sets ways : Nat) (tags : List Nat) : Prop :=
  ∀ set, set < sets → ∀ i, i < ways → ∀ j, j < ways → i ≠ j →
    (tags.getD (set * ways + i) 0).testBit 63 = true →
    (tags.getD (set * ways + j) 0).testBit 63 = true →
    tag_payload (tags.getD (set * ways + i) 0) ≠
      tag_payload (tags.getD (set * ways + j) 0)

/-- The `std::map` model is well-formed: entries strictly sorted by key (the
invariant every `std::map` holds, and what `map_insert`/`map_erase` rely on). -/
def map_wf {α : Type} (m : List (Nat × α)) : Prop :=
  List.Pairwise (fun e1 e2 => e1.1 < e2.1) m

/-- `tags_ok` is decidable (stated through an equivalent or-form, as instance
search does not chain the implication form). -/
instance tags_ok_decidable (sets ways : Nat) (tags : List Nat) :
    Decidable (tags_ok sets ways tags) :=
  decidable_of_iff (∀ set, set < sets → ∀ i, i < ways → ∀ j, j < ways →
      i = j ∨ (tags.getD (set * ways + i) 0).testBit 63 = false ∨
      (tags.getD (set * ways + j) 0).testBit 63 = false ∨
      tag_payload (tags.getD (set * ways + i) 0) ≠
        tag_payload (tags.getD (set * ways + j) 0)) (by
    constructor
    · intro h set hset i hi j hj hij hv1 hv2
      rcases h set hset i hi j hj with h1 | h1 | h1 | h1
      · exact absurd h1 hij
      · rw [hv1] at h1
        exact Bool.noConfusion h1
      · rw [hv2] at h1
        exact Bool.noConfusion h1
      · exact h1
    · intro h set hset i hi j hj
      by_cases hij : i = j
      · exact Or.inl hij
      · by_cases hv1 : (tags.getD (set * ways + i) 0).testBit 63 = true
        · by_cases hv2 : (tags.getD (set * ways + j) 0).testBit 63 = true
          · exact Or.inr (Or.inr (Or.inr (h set hset i hi j hj hij hv1 hv2)))
          · exact Or.inr (Or.inr (Or.inl (Bool.eq_false_iff.mpr hv2)))
        · exact Or.inr (Or.inl (Bool.eq_false_iff.mpr hv1)))

/-- A two-access sequence: a read of line 0 and a store to line 1. -/
def c3_l : List mem_access_t := [⟨0, 8, false, 0⟩, ⟨8, 8, true, 1⟩]

/-- The final state of a fresh 2x2 random cache after `c3_l`. -/
def c3_rand_final : cache_state Unit :=
  (cache_sim_run base_check_tag cache_sim_victimize set_dirty false
      (cache_sim_init 2 2 8 ()) c3_l).getD (cache_sim_init 2 2 8 ())

/-- The final state of a fresh 1x2 linear-evict cache after `c3_l`. -/
def c3_lin_final : cache_state (List (Nat × Nat)) :=
  (cache_sim_run base_check_tag linear_evict_victimize set_dirty false
      (cache_sim_init 1 2 8 []) c3_l).getD (cache_sim_init 1 2 8 [])

/-- The final state of a fresh 1x2 Hawkeye cache after `c3_l`. -/
def c3_hawk_final : cache_state hawk_ext :=
  (cache_sim_run hawkeye_check_tag hawkeye_victimize set_dirty false
      (hawkeye_init 1 2 8) c3_l).getD (hawkeye_init 1 2 8)

/-- The final state of a fresh 8-way fully-associative cache after `c3_l`. -/
def c3_fa_final : cache_state (List (Nat × Nat)) :=
  (cache_sim_run fa_check_tag fa_victimize fa_mark_dirty false
      (cache_sim_init 1 8 8 []) c3_l).getD (cache_sim_init 1 8 8 [])

/-- C6: `cache_sim_t::construct` selects the policy with this precedence: a
fourth config field equal to "linear" yields the linear policy and "hawkeye"
yields Hawkeye; otherwise, if `ways > 4` and `sets == 1` it yields the
fully-associative cache; otherwise the default random-evict cache. -/
theorem construct_policy_precedence (sets ways : Nat) (type : Option String) :
    (construct_policy sets ways type = .linear_evict ↔ type = some "linear") ∧
    (construct_policy sets ways type = .hawkeye ↔
      type ≠ some "linear" ∧ type = some "hawkeye") ∧
    (construct_policy sets ways type = .fa ↔
      type ≠ some "linear" ∧ type ≠ some "hawkeye" ∧ 4 < ways ∧ sets = 1) ∧
    (construct_policy sets ways type = .random ↔
      type ≠ some "linear" ∧ type ≠ some "hawkeye" ∧ ¬(4 < ways ∧ sets = 1)) := by
  unfold construct_policy
  by_cases h1 : type = some "linear"
  · subst h1; simp
  · by_cases h2 : type = some "hawkeye"
    · subst h2; simp at h1 ⊢
    · by_cases h3 : 4 < ways ∧ sets = 1 <;> simp [h1, h2, h3]

/-- C7: on a `2:2:64` default random cache with the LFSR seeded to 1 and no
downstream handler, the sequence `(0x000,8,R), (0x000,8,W), (0x000,8,R)` ends
with `read_accesses = 2`, `write_accesses = 1`,
`read_misses + write_misses = 1`, `bytes_read = 16`, `bytes_written = 8`. -/
theorem scenario_S5_totals :
    (cache_sim_run base_check_tag cache_sim_victimize set_dirty false
        (cache_sim_init 2 2 64 ()) scenario_S5).map
      (fun s => (s.stats.read_accesses, s.stats.write_accesses,
                 s.stats.read_misses + s.stats.write_misses,
                 s.stats.bytes_read, s.stats.bytes_written)) =
    some (2, 1, 1, 16, 8) := by
  rfl

/-- C8: construction validates only `sets` and `linesz` — `init_valid` does not
even mention `ways`, so `sets = 1, ways = 0, linesz = 8` passes — and on such a
default-policy cache the very first miss reaches the modulo-by-zero branch of
the embedded `victimize` (`lfsr.next() % ways` with `ways = 0`), so the access
aborts with `none`. -/
theorem ways_never_validated_mod_zero_reachable :
    init_valid 1 8 = true ∧
    cache_sim_victimize (cache_sim_init 1 0 8 ()) 0 0 = none ∧
    cache_sim_access base_check_tag cache_sim_victimize set_dirty
      (cache_sim_init 1 0 8 ()) false 0 0 4 false = none := by
  exact ⟨rfl, rfl, rfl⟩

/-- C2 counterexample: copy-constructing a cache does not zero the statistics
counters — they are left uninitialized, so whatever the junk memory held (here
5) is what the copy reports.  The claim "all statistics counters equal zero"
fails at this concrete input. -/
theorem copy_ctor_counters_not_zero :
    (cache_sim_copy (cache_sim_init 2 2 64 ()) ⟨5, 0, 0, 0, 0, 0, 0⟩).stats.read_accesses ≠ 0 := by
  decide

/-- C2 amended: copy-construction deep-copies the tag array element-wise and
resets `log` and the LFSR, but the statistics counters are exactly the
indeterminate values the uninitialized members held (the constructor never
writes them), not zero. -/
theorem copy_ctor_deep_copy_counters_uninitialized (rhs : cache_state Unit) (junk : stats_t) :
    (cache_sim_copy rhs junk).tags = rhs.tags ∧
    (∀ k d, (cache_sim_copy rhs junk).tags.getD k d = rhs.tags.getD k d) ∧
    (cache_sim_copy rhs junk).stats = junk ∧
    (cache_sim_copy rhs junk).lfsr = 1 :=
  ⟨rfl, fun _ _ => rfl, rfl, rfl⟩

/-- Inserting under key `k` makes a lookup of `k` find the inserted value. -/
theorem map_find?_insert_self {α : Type} (m : List (Nat × α)) (k : Nat) (v : α) :
    map_find? (map_insert m k v) k = some v := by
  induction m with
  | nil => simp [map_insert, map_find?]
  | cons e m ih =>
    by_cases h1 : k < e.1
    · simp [map_insert, h1, map_find?]
    · by_cases h2 : k = e.1
      · simp [map_insert, h1, h2, map_find?]
      · have hne : ¬ (e.1 == k) = true := by
          simp only [beq_iff_eq]; exact fun h => h2 h.symm
        simp only [map_insert, if_neg h1, if_neg h2, map_find?, List.find?_cons,
          hne] at ih ⊢
        simpa [map_find?] using ih

/-- C10: while the fully-associative cache is not yet full
(`map size < ways`), `victimize` returns the tag word 0 (no VALID bit), so a
miss in that state never increments `writebacks` and never issues a downstream
store — every downstream call of such an access is a refill. -/
theorem fa_not_full_no_writeback
    (s : cache_state (List (Nat × Nat))) (mh : Bool) (pc addr bytes : Nat) (store : Bool)
    (hnotfull : s.ext.length < s.ways) :
    (∃ s1, fa_victimize s pc addr = some (s1, 0)) ∧
    ∀ s' tr,
      cache_sim_access fa_check_tag fa_victimize fa_mark_dirty s mh pc addr bytes store =
        some (s', tr) →
      s'.stats.writebacks = s.stats.writebacks ∧ ∀ c ∈ tr, c.store = false := by
  constructor
  · exact ⟨_, by unfold fa_victimize; rw [if_neg (Nat.ne_of_lt hnotfull)]⟩
  · intro s' tr hacc
    cases store <;>
      rcases hfind : map_find? s.ext (addr >>> s.idx_shift) with _ | v <;>
      simp only [cache_sim_access, bump_access, bump_miss, wb_and_refill,
        fa_check_tag, fa_victimize, fa_mark_dirty,
        Bool.false_eq_true, if_false, if_true, hfind, Option.map_none',
        Option.map_some', if_neg (Nat.ne_of_lt hnotfull), Nat.zero_and,
        if_neg (by decide : ¬ (0 : Nat) = VALID ||| DIRTY),
        map_find?_insert_self, List.nil_append,
        Option.some.injEq, Prod.mk.injEq] at hacc
    · -- read miss: refill only
      obtain ⟨rfl, rfl⟩ := hacc
      cases mh <;> simp
    · -- read hit
      obtain ⟨rfl, rfl⟩ := hacc
      simp
    · -- write miss: insert, re-lookup finds the fresh entry, mark dirty
      obtain ⟨rfl, rfl⟩ := hacc
      cases mh <;> simp [map_update]
    · -- write hit
      obtain ⟨rfl, rfl⟩ := hacc
      simp [map_update]

/-- C10 witness: a fresh 8-way fully-associative cache (empty map) exercises
the not-full victimize path on a read access with a downstream handler. -/
theorem fa_not_full_no_writeback_witness :
    (∃ s1, fa_victimize (cache_sim_init 1 8 64 ([] : List (Nat × Nat))) 0 0 = some (s1, 0)) ∧
    ∀ s' tr,
      cache_sim_access fa_check_tag fa_victimize fa_mark_dirty
          (cache_sim_init 1 8 64 ([] : List (Nat × Nat))) true 0 0 8 false =
        some (s', tr) →
      s'.stats.writebacks = (cache_sim_init 1 8 64 ([] : List (Nat × Nat))).stats.writebacks ∧
      ∀ c ∈ tr, c.store = false :=
  fa_not_full_no_writeback (cache_sim_init 1 8 64 []) true 0 0 8 false (by decide)

/-- Clearing the low `k` bits of a word with the C mask `~(2^k - 1)` leaves a
multiple of `2 ^ k`. -/
theorem and_not64_aligned (x k : Nat) (hk : k ≤ 64) :
    (x &&& not64 (2 ^ k - 1)) % 2 ^ k = 0 := by
  rw [← Nat.and_pow_two_sub_one_eq_mod]
  apply Nat.eq_of_testBit_eq
  intro i
  simp only [Nat.testBit_and, not64, Nat.testBit_xor, Nat.testBit_two_pow_sub_one,
    Nat.zero_testBit]
  by_cases hik : i < k
  · have h64 : i < 64 := Nat.lt_of_lt_of_le hik hk
    simp [hik, h64]
  · simp [hik]

/-- A left shift by `k` is `2 ^ k`-aligned. -/
theorem shiftLeft_aligned (x k : Nat) : (x <<< k) % 2 ^ k = 0 := by
  simp [Nat.shiftLeft_eq, Nat.mul_mod_left]

/-- C4: for any policy hooks that preserve the geometry fields (all four
policies do), every call an access issues to a wired downstream handler has a
line-aligned address and `bytes = linesz`, and the trace is either empty, a
lone refill (`is_store = false`), or a writeback (`is_store = true`, derived
from a VALID+DIRTY victim as `(victim & ~(VALID|DIRTY)) << idx_shift`)
followed by the refill. -/
theorem downstream_calls_shape {ε : Type}
    (check_tag : cache_state ε → Nat → Nat → cache_state ε × Option Nat)
    (victimize : cache_state ε → Nat → Nat → Option (cache_state ε × Nat))
    (mark_dirty : cache_state ε → Nat → cache_state ε)
    (hck : ∀ t pc addr, (check_tag t pc addr).1.linesz = t.linesz ∧
                        (check_tag t pc addr).1.idx_shift = t.idx_shift)
    (hv : ∀ t pc addr r, victimize t pc addr = some r →
            r.1.linesz = t.linesz ∧ r.1.idx_shift = t.idx_shift)
    (s : cache_state ε) (pc addr bytes : Nat) (store : Bool)
    (hpow : s.linesz = 2 ^ s.idx_shift) (hle : s.idx_shift ≤ 64)
    (s' : cache_state ε) (tr : List dcall_t)
    (hacc : cache_sim_access check_tag victimize mark_dirty s true pc addr bytes store =
      some (s', tr)) :
    (∀ c ∈ tr, c.addr % s.linesz = 0 ∧ c.bytes = s.linesz) ∧
    (tr = [] ∨
     (∃ b, tr = [⟨b, s.linesz, false⟩]) ∨
     (∃ a b v, tr = [⟨a, s.linesz, true⟩, ⟨b, s.linesz, false⟩] ∧
        v &&& (VALID ||| DIRTY) = VALID ||| DIRTY ∧
        a = (v &&& not64 (VALID ||| DIRTY)) <<< s.idx_shift)) := by
  have hb : (bump_access s bytes store).linesz = s.linesz ∧
      (bump_access s bytes store).idx_shift = s.idx_shift := by
    cases store <;> simp [bump_access]
  unfold cache_sim_access at hacc
  split at hacc
  next s2 p hct =>
    -- hit: no downstream calls
    simp only [Option.some.injEq, Prod.mk.injEq] at hacc
    obtain ⟨-, rfl⟩ := hacc
    exact ⟨by simp, Or.inl rfl⟩
  next s2 hct =>
    have hs2 : s2.linesz = s.linesz ∧ s2.idx_shift = s.idx_shift := by
      have h := hck (bump_access s bytes store) pc addr
      rw [hct] at h
      exact ⟨h.1.trans hb.1, h.2.trans hb.2⟩
    have hs3 : (bump_miss s2 store).linesz = s.linesz ∧
        (bump_miss s2 store).idx_shift = s.idx_shift := by
      cases store <;> simp [bump_miss, hs2.1, hs2.2]
    split at hacc
    next hvic => exact Option.noConfusion hacc
    next s4 victim hvic =>
    have hs4 : s4.linesz = s.linesz ∧ s4.idx_shift = s.idx_shift := by
      have h := hv _ pc addr _ hvic
      exact ⟨h.1.trans hs3.1, h.2.trans hs3.2⟩
    by_cases hdirty : victim &&& (VALID ||| DIRTY) = VALID ||| DIRTY
    · have hwr : wb_and_refill s4 victim true addr =
          ({ s4 with stats := { s4.stats with writebacks := s4.stats.writebacks + 1 } },
           [⟨(victim &&& not64 (VALID ||| DIRTY)) <<< s4.idx_shift, s4.linesz, true⟩,
            ⟨addr &&& not64 (s4.linesz - 1), s4.linesz, false⟩]) := by
        simp [wb_and_refill, hdirty]
      rw [hwr] at hacc
      have htr : tr =
          [⟨(victim &&& not64 (VALID ||| DIRTY)) <<< s4.idx_shift, s4.linesz, true⟩,
           ⟨addr &&& not64 (s4.linesz - 1), s4.linesz, false⟩] := by
        split at hacc
        · split at hacc
          next s6 q hct2 =>
            simp only [Option.some.injEq, Prod.mk.injEq] at hacc
            exact hacc.2.symm
          next hct2 => exact Option.noConfusion hacc
        · simp only [Option.some.injEq, Prod.mk.injEq] at hacc
          exact hacc.2.symm
      subst htr
      constructor
      · intro c hc
        simp only [List.mem_cons, List.not_mem_nil, or_false] at hc
        rcases hc with rfl | rfl
        · refine ⟨?_, hs4.1⟩
          rw [hs4.2, hpow]
          exact shiftLeft_aligned _ _
        · refine ⟨?_, hs4.1⟩
          rw [hs4.1, hpow]
          exact and_not64_aligned _ _ hle
      · refine Or.inr (Or.inr ⟨(victim &&& not64 (VALID ||| DIRTY)) <<< s4.idx_shift,
          addr &&& not64 (s4.linesz - 1), victim, ?_, hdirty, ?_⟩)
        · rw [hs4.1]
        · rw [hs4.2]
    · have hwr : wb_and_refill s4 victim true addr =
          (s4, [⟨addr &&& not64 (s4.linesz - 1), s4.linesz, false⟩]) := by
        simp [wb_and_refill, hdirty]
      rw [hwr] at hacc
      have htr : tr = [⟨addr &&& not64 (s4.linesz - 1), s4.linesz, false⟩] := by
        split at hacc
        · split at hacc
          next s6 q hct2 =>
            simp only [Option.some.injEq, Prod.mk.injEq] at hacc
            exact hacc.2.symm
          next hct2 => exact Option.noConfusion hacc
        · simp only [Option.some.injEq, Prod.mk.injEq] at hacc
          exact hacc.2.symm
      subst htr
      constructor
      · intro c hc
        simp only [List.mem_cons, List.not_mem_nil, or_false] at hc
        subst hc
        refine ⟨?_, hs4.1⟩
        rw [hs4.1, hpow]
        exact and_not64_aligned _ _ hle
      · exact Or.inr (Or.inl ⟨_, by rw [hs4.1]⟩)

/-- Both hooks of the base policy leave the geometry fields unchanged. -/
theorem base_check_tag_geometry {ε : Type} (t : cache_state ε) (pc addr : Nat) :
    (base_check_tag t pc addr).1.linesz = t.linesz ∧
    (base_check_tag t pc addr).1.idx_shift = t.idx_shift :=
  ⟨rfl, rfl⟩

/-- The default victimize leaves the geometry fields unchanged. -/
theorem cache_sim_victimize_geometry (t : cache_state Unit) (pc addr : Nat)
    (r : cache_state Unit × Nat) (h : cache_sim_victimize t pc addr = some r) :
    r.1.linesz = t.linesz ∧ r.1.idx_shift = t.idx_shift := by
  unfold cache_sim_victimize at h
  split at h
  · exact Option.noConfusion h
  · simp only [Option.some.injEq] at h
    subst h
    exact ⟨rfl, rfl⟩

/-- C4 witness: a read of address 8 on a direct-mapped cache holding a dirty
line 0, with a downstream handler wired, issues exactly the aligned writeback
followed by the aligned refill. -/
theorem downstream_calls_shape_witness :
    (∀ c ∈ ([⟨0, 8, true⟩, ⟨8, 8, false⟩] : List dcall_t),
       c.addr % c4_state.linesz = 0 ∧ c.bytes = c4_state.linesz) ∧
    (([⟨0, 8, true⟩, ⟨8, 8, false⟩] : List dcall_t) = [] ∨
     (∃ b, ([⟨0, 8, true⟩, ⟨8, 8, false⟩] : List dcall_t) = [⟨b, c4_state.linesz, false⟩]) ∨
     (∃ a b v, ([⟨0, 8, true⟩, ⟨8, 8, false⟩] : List dcall_t) =
          [⟨a, c4_state.linesz, true⟩, ⟨b, c4_state.linesz, false⟩] ∧
        v &&& (VALID ||| DIRTY) = VALID ||| DIRTY ∧
        a = (v &&& not64 (VALID ||| DIRTY)) <<< c4_state.idx_shift)) :=
  downstream_calls_shape base_check_tag cache_sim_victimize set_dirty
    base_check_tag_geometry cache_sim_victimize_geometry
    c4_state 0 8 8 false rfl (by decide)
    ⟨1, 1, 8, 3, [9223372036854775809], ⟨1, 1, 8, 1, 1, 8, 1⟩, 3087007745, ()⟩
    [⟨0, 8, true⟩, ⟨8, 8, false⟩] rfl

/-- Reading back the slot just written (in-range write). -/
theorem getD_set_self {α : Type} (l : List α) (i : Nat) (a d : α) (h : i < l.length) :
    (l.set i a).getD i d = a := by
  simp [List.getD_eq_getElem?_getD, List.getElem?_set_self (by simpa using h)]

/-- The running maximum fold of hawkeye victimize keeps its index inside the
set whenever it starts there and the scanned indices are in range. -/
theorem fold_max_snd_lt (f : Nat → Nat) (l : List Nat) (ways : Nat)
    (hl : ∀ i ∈ l, i < ways) (acc : Nat × Nat) (hacc : acc.2 < ways) :
    (l.foldl (fun acc i => if acc.1 ≤ f i then (f i, i) else acc) acc).2 < ways := by
  induction l generalizing acc with
  | nil => exact hacc
  | cons a l ih =>
    refine ih (fun i hi => hl i (List.mem_cons_of_mem _ hi)) _ ?_
    by_cases h : acc.1 ≤ f a
    · simpa [h] using hl a (List.mem_cons_self _ _)
    · simpa [h] using hacc

/-- C1 counterexample: at `c1_state` (no way is cache-averse, pre-eviction
signature of the evicted way 1 is 43) a victimize with PC 7 logs the predictor
decrement on key 7 — the current PC — and not on the pre-eviction signature
43, refuting the claim that the decrement is indexed by the pre-eviction
`signatures[set][evicted_way]`. -/
theorem hawkeye_victimize_trains_pc_counterexample :
    c1_state.ext.signatures.getD 1 0 = 43 ∧
    (∀ i, i < c1_state.ways → c1_state.ext.rrpv.getD i 0 ≠ MAX_RRPV) ∧
    (hawkeye_victimize c1_state 7 0).map (fun p => p.1.ext.pred_log) = some [(false, 7)] ∧
    (7 : Nat) ≠ 43 := by
  refine ⟨rfl, ?_, rfl, by decide⟩
  intro i hi
  rw [show c1_state.ways = 2 from rfl] at hi
  interval_cases i <;> decide

/-- C1 amended: when no way of the indexed set holds `rrpv = MAX_RRPV`, the
eviction path of hawkeye victimize trains the predictor negatively on the
current PC — `signatures[set][lru_victim]` is assigned the PC before the
decrement reads it back — rather than on the pre-eviction signature. -/
theorem hawkeye_lru_eviction_trains_current_pc
    (s : cache_state hawk_ext) (pc addr : Nat)
    (hways : 0 < s.ways) (hsets : 0 < s.sets)
    (hsig : s.ext.signatures.length = s.sets * s.ways)
    (hnomax : ∀ i, i < s.ways →
      s.ext.rrpv.getD (((addr >>> s.idx_shift) &&& (s.sets - 1)) * s.ways + i) 0 ≠ MAX_RRPV) :
    ∃ s9 v, hawkeye_victimize s pc addr = some (s9, v) ∧
      s9.ext.pred_log = s.ext.pred_log ++ [(false, pc)] := by
  have hfind : (List.range s.ways).find?
      (fun i => s.ext.rrpv.getD
        (((addr >>> s.idx_shift) &&& (s.sets - 1)) * s.ways + i) 0 == MAX_RRPV) = none := by
    rw [List.find?_eq_none]
    intro i hi
    simp only [beq_iff_eq]
    exact hnomax i (List.mem_range.mp hi)
  have hw : ((List.range s.ways).foldl
      (fun acc i => if acc.1 ≤ s.ext.rrpv.getD
          (((addr >>> s.idx_shift) &&& (s.sets - 1)) * s.ways + i) 0
        then (s.ext.rrpv.getD (((addr >>> s.idx_shift) &&& (s.sets - 1)) * s.ways + i) 0, i)
        else acc) (0, 0)).2 < s.ways :=
    fold_max_snd_lt _ _ s.ways (fun i hi => List.mem_range.mp hi) (0, 0) hways
  have hsetlt : ((addr >>> s.idx_shift) &&& (s.sets - 1)) < s.sets :=
    Nat.lt_of_le_of_lt Nat.and_le_right (Nat.sub_lt hsets (by decide))
  have hidx : ((addr >>> s.idx_shift) &&& (s.sets - 1)) * s.ways +
      ((List.range s.ways).foldl
        (fun acc i => if acc.1 ≤ s.ext.rrpv.getD
            (((addr >>> s.idx_shift) &&& (s.sets - 1)) * s.ways + i) 0
          then (s.ext.rrpv.getD (((addr >>> s.idx_shift) &&& (s.sets - 1)) * s.ways + i) 0, i)
          else acc) (0, 0)).2 < s.ext.signatures.length := by
    rw [hsig]
    calc ((addr >>> s.idx_shift) &&& (s.sets - 1)) * s.ways + _
        < (((addr >>> s.idx_shift) &&& (s.sets - 1)) + 1) * s.ways := by
          rw [Nat.succ_mul]; exact Nat.add_lt_add_left hw _
      _ ≤ s.sets * s.ways := Nat.mul_le_mul_right _ hsetlt
  simp only [hawkeye_victimize, hfind, if_neg (Nat.ne_of_gt hways)]
  refine ⟨_, _, rfl, ?_⟩
  simp only [apply_ite (fun e : hawk_ext => e.pred_log),
             apply_ite (fun e : hawk_ext => e.signatures), ite_self]
  rw [getD_set_self _ _ _ _ hidx]

/-- C1 witness: the amended statement applied at the concrete state
`c1_state` with PC 9. -/
theorem hawkeye_lru_eviction_trains_current_pc_witness :
    ∃ s9 v, hawkeye_victimize c1_state 9 0 = some (s9, v) ∧
      s9.ext.pred_log = c1_state.ext.pred_log ++ [(false, 9)] :=
  hawkeye_lru_eviction_trains_current_pc c1_state 9 0 (by decide) (by decide) (by decide)
    (by intro i hi
        rw [show c1_state.ways = 2 from rfl] at hi
        interval_cases i <;> decide)

/-- Reading a slot other than the one written. -/
theorem getD_set_ne {α : Type} (l : List α) (i j : Nat) (a d : α) (h : i ≠ j) :
    (l.set i a).getD j d = l.getD j d := by
  simp [List.getD_eq_getElem?_getD, List.getElem?_set_ne h]

/-- Setting the DIRTY bit commutes away under the comparison mask `~DIRTY`. -/
theorem masked_or_dirty (x : Nat) : (x ||| DIRTY) &&& not64 DIRTY = x &&& not64 DIRTY := by
  apply Nat.eq_of_testBit_eq
  intro i
  simp only [Nat.testBit_and, Nat.testBit_or, not64, Nat.testBit_xor,
    Nat.testBit_two_pow_sub_one, DIRTY, Nat.testBit_two_pow]
  by_cases h : i = 62
  · subst h; simp
  · simp [Ne.symm h]

/-- A clean tag word `x | VALID` with a payload below bit 62 is untouched by
the comparison mask `~DIRTY` (it carries no DIRTY bit and no bits above 63). -/
theorem masked_clean_tag (x : Nat) (hx : x < 2 ^ 62) :
    (x ||| VALID) &&& not64 DIRTY = x ||| VALID := by
  apply Nat.eq_of_testBit_eq
  intro i
  simp only [Nat.testBit_and, Nat.testBit_or, not64, Nat.testBit_xor,
    Nat.testBit_two_pow_sub_one, VALID, DIRTY, Nat.testBit_two_pow]
  by_cases h62 : (62 : Nat) = i
  · subst h62
    simp [Nat.testBit_lt_two_pow hx]
  · by_cases h64 : i < 64
    · simp [h62, h64]
    · have hxi : x.testBit i = false :=
        Nat.testBit_lt_two_pow
          (lt_of_lt_of_le hx (Nat.pow_le_pow_right (by decide) (by omega)))
      simp [h62, h64, hxi]
      omega

/-- Shifting a 64-bit address right by at least 3 keeps the payload below
bit 61. -/
theorem shifted_addr_lt (addr sh : Nat) (haddr : addr < 2 ^ 64) (hsh : 3 ≤ sh) :
    addr >>> sh < 2 ^ 62 := by
  rw [Nat.shiftRight_eq_div_pow]
  have h8 : 2 ^ 3 ≤ 2 ^ sh := Nat.pow_le_pow_right (by decide) hsh
  calc addr / 2 ^ sh ≤ addr / 2 ^ 3 := Nat.div_le_div_left h8 (by decide)
    _ < 2 ^ 62 := by omega

/-- The DIRTY-bit write `*ptr |= DIRTY` changes no slot's masked value. -/
theorem masked_getD_set_or_dirty (l : List Nat) (p k : Nat) :
    ((l.set p (l.getD p 0 ||| DIRTY)).getD k 0) &&& not64 DIRTY =
      l.getD k 0 &&& not64 DIRTY := by
  by_cases hpk : p = k
  · subst hpk
    by_cases hp : p < l.length
    · rw [getD_set_self _ _ _ _ hp, masked_or_dirty]
    · rw [List.set_eq_of_length_le (le_of_not_lt hp)]
  · rw [getD_set_ne _ _ _ _ _ hpk]

/-- The base scan hits as soon as one way of the indexed set matches under the
mask. -/
theorem cache_sim_check_tag_isSome {ε : Type} (s : cache_state ε) (addr : Nat)
    (h : ∃ i, i < s.ways ∧
      s.tags.getD (((addr >>> s.idx_shift) &&& (s.sets - 1)) * s.ways + i) 0 &&& not64 DIRTY =
        (addr >>> s.idx_shift) ||| VALID) :
    (cache_sim_check_tag s addr).isSome = true := by
  obtain ⟨i, hi, hm⟩ := h
  unfold cache_sim_check_tag
  rcases hf : (List.range s.ways).find?
      (fun i => ((addr >>> s.idx_shift) ||| VALID) ==
        (s.tags.getD (((addr >>> s.idx_shift) &&& (s.sets - 1)) * s.ways + i) 0 &&&
          not64 DIRTY)) with _ | j
  · rw [List.find?_eq_none] at hf
    have h2 := hf i (List.mem_range.mpr hi)
    simp only [beq_iff_eq] at h2
    exact absurd hm.symm h2
  · simp only [hf, Option.map_some', Option.isSome_some]

/-- The base scan misses exactly when no way of the indexed set matches. -/
theorem cache_sim_check_tag_eq_none {ε : Type} (s : cache_state ε) (addr : Nat) :
    cache_sim_check_tag s addr = none ↔
    ∀ i, i < s.ways →
      (addr >>> s.idx_shift) ||| VALID ≠
        s.tags.getD (((addr >>> s.idx_shift) &&& (s.sets - 1)) * s.ways + i) 0 &&& not64 DIRTY := by
  unfold cache_sim_check_tag
  rw [Option.map_eq_none', List.find?_eq_none]
  constructor
  · intro h i hi
    have := h i (List.mem_range.mpr hi)
    simpa using this
  · intro h i hi
    simpa using h i (List.mem_range.mp hi)

/-- `should_cache` never changes the access record. -/
theorem OPTgen.should_cache_num_accesses (o : OPTgen) (a b : Nat) :
    ((o.should_cache a b).2).num_accesses = o.num_accesses := by
  simp only [OPTgen.should_cache]
  split <;> rfl

/-- In-place value updates keep every key findable. -/
theorem map_find?_update_isSome {α : Type} (m : List (Nat × α)) (k k2 : Nat) (f : α → α) :
    (map_find? (map_update m k f) k2).isSome = (map_find? m k2).isSome := by
  induction m with
  | nil => rfl
  | cons e m ih =>
    by_cases h : e.1 = k <;> by_cases h2 : e.1 = k2 <;>
      simp_all [map_update, map_find?, List.find?_cons]

/-- Mapping a key-preserving function over the list keeps every key findable. -/
theorem map_find?_map_isSome {α : Type} (g : (Nat × α) → (Nat × α))
    (hg : ∀ e, (g e).1 = e.1) (m : List (Nat × α)) (k : Nat) :
    (map_find? (m.map g) k).isSome = (map_find? m k).isSome := by
  induction m with
  | nil => rfl
  | cons e m ih =>
    simp only [List.map_cons, map_find?, List.find?_cons, hg e]
    by_cases h2 : (e.1 == k) = true
    · simp [h2]
    · simp only [Bool.not_eq_true] at h2
      simp only [h2]
      simpa [map_find?] using ih

/-- Aging the sampler keeps every key findable. -/
theorem update_addr_history_lru_find?_isSome (m : List (Nat × ADDR_INFO))
    (cl k : Nat) :
    (map_find? (update_addr_history_lru m cl) k).isSome = (map_find? m k).isSome :=
  map_find?_map_isSome _ (fun e => by by_cases h : e.2.lru < cl <;> simp [h]) m k

set_option maxHeartbeats 1000000

theorem hawk_sampler_update_spec (t : cache_state hawk_ext) (pc addr : Nat)
    (SET stag : Nat)
    (hSET : SET = (addr >>> t.idx_shift) &&& (t.sets - 1))
    (hstag : stag = (addr >>> t.idx_shift) ||| VALID)
    (hsets : 0 < t.sets)
    (hlt : t.ext.perset_timer.length = t.sets)
    (hlo : t.ext.perset_optgen.length = t.sets)
    (hlh : t.ext.addr_history.length = t.sets) :
    (hawk_sampler_update t pc addr).1.check_calls = t.ext.check_calls + 1 ∧
    (hawk_sampler_update t pc addr).1.perset_timer.getD SET 0 =
      (t.ext.perset_timer.getD SET 0 + 1) % TIMER_SIZE ∧
    (hawk_sampler_update t pc addr).1.perset_timer.length = t.sets ∧
    (hawk_sampler_update t pc addr).1.perset_optgen.length = t.sets ∧
    (hawk_sampler_update t pc addr).1.addr_history.length = t.sets ∧
    ((hawk_sampler_update t pc addr).1.perset_optgen.getD SET
        (OPTgen.init (t.ways - 2))).num_accesses =
      (t.ext.perset_optgen.getD SET (OPTgen.init (t.ways - 2))).num_accesses + 1 ∧
    (map_find? ((hawk_sampler_update t pc addr).1.addr_history.getD SET []) stag).isSome =
      true ∧
    (hawk_sampler_update t pc addr).1.rrpv = t.ext.rrpv ∧
    ∃ l, (hawk_sampler_update t pc addr).1.pred_log = t.ext.pred_log ++ l ∧
      l.length = (if (map_find? (t.ext.addr_history.getD SET []) stag).isSome then 1 else 0) := by
  have hSETlt : SET < t.sets := by
    rw [hSET]
    exact Nat.lt_of_le_of_lt Nat.and_le_right (Nat.sub_lt hsets (by decide))
  subst hSET hstag
  rcases hfind : map_find? (t.ext.addr_history.getD ((addr >>> t.idx_shift) &&& (t.sets - 1)) [])
      ((addr >>> t.idx_shift) ||| VALID) with _ | info <;>
    simp only [hawk_sampler_update, hfind]
  · refine ⟨trivial, getD_set_self _ _ _ _ (by rw [hlt]; exact hSETlt),
      ?_, ?_, ?_, ?_, ?_, ?_, ?_⟩
    · rw [List.length_set, hlt]
    · rw [List.length_set, hlo]
    · rw [List.length_set, List.length_set, hlh]
    · rw [getD_set_self _ _ _ _ (by rw [hlo]; exact hSETlt)]
      rfl
    · rw [getD_set_self _ _ _ _ (by rw [List.length_set, hlh]; exact hSETlt),
         map_find?_update_isSome,
         getD_set_self _ _ _ _ (by rw [hlh]; exact hSETlt),
         update_addr_history_lru_find?_isSome, Option.isSome_iff_exists]
      exact ⟨_, map_find?_insert_self _ _ _⟩
    · first | trivial | rfl
    · exact ⟨[], (List.append_nil _).symm, by simp [hfind]⟩
  · refine ⟨?_, ?_, ?_, ?_, ?_, ?_, ?_, ?_, ?_⟩
    · simp only [apply_ite (fun e : hawk_ext => e.check_calls), ite_self]
    · simp only [apply_ite (fun e : hawk_ext => e.perset_timer), ite_self]
      exact getD_set_self _ _ _ _ (by rw [hlt]; exact hSETlt)
    · simp only [apply_ite (fun e : hawk_ext => e.perset_timer), ite_self,
        List.length_set]
      exact hlt
    · simp only [apply_ite (fun e : hawk_ext => e.perset_optgen), ite_self,
        List.length_set]
      exact hlo
    · simp only [apply_ite (fun e : hawk_ext => e.addr_history), ite_self,
        List.length_set]
      exact hlh
    · simp only [apply_ite (fun e : hawk_ext => e.perset_optgen), ite_self]
      rw [getD_set_self _ _ _ _ (by rw [hlo]; exact hSETlt)]
      simp only [OPTgen.add_access]
      rw [apply_ite (fun p : Bool × OPTgen => p.2.num_accesses)]
      rw [OPTgen.should_cache_num_accesses, ite_self]
    · simp only [apply_ite (fun e : hawk_ext => e.addr_history), ite_self]
      rw [getD_set_self _ _ _ _ (by rw [List.length_set, hlh]; exact hSETlt),
          map_find?_update_isSome,
          getD_set_self _ _ _ _ (by rw [hlh]; exact hSETlt),
          update_addr_history_lru_find?_isSome, hfind]
      rfl
    · simp only [apply_ite (fun e : hawk_ext => e.rrpv), ite_self]
    · simp only [apply_ite (fun e : hawk_ext => e.pred_log), Option.isSome_some,
        eq_self_iff_true, if_true]
      split_ifs <;>
        first
          | exact ⟨[(true, info.PC)], rfl, rfl⟩
          | exact ⟨[(false, info.PC)], rfl, rfl⟩

/-- The access-counter bump does not disturb the tag scan. -/
theorem cache_sim_check_tag_bump {ε : Type} (s : cache_state ε) (bytes : Nat)
    (st : Bool) (addr : Nat) :
    cache_sim_check_tag (bump_access s bytes st) addr = cache_sim_check_tag s addr := by
  cases st <;> rfl

/-- On a miss of the base scan, the RRPV fix-up inside hawkeye check_tag is a
no-op, so the hook returns the sampler-updated state and the miss. -/
theorem hawkeye_check_tag_miss (t : cache_state hawk_ext) (pc addr : Nat)
    (hmiss : cache_sim_check_tag t addr = none) :
    hawkeye_check_tag t pc addr =
      ({ t with ext := (hawk_sampler_update t pc addr).1 }, none) := by
  have hfilter : ((List.range t.ways).filter
      (fun i => ((addr >>> t.idx_shift) ||| VALID) ==
        (t.tags.getD (((addr >>> t.idx_shift) &&& (t.sets - 1)) * t.ways + i) 0 &&&
          not64 DIRTY))) = [] := by
    rw [List.filter_eq_nil_iff]
    intro i hi
    have h := (cache_sim_check_tag_eq_none t addr).mp hmiss i (List.mem_range.mp hi)
    simpa using h
  unfold hawkeye_check_tag
  simp only [hawk_rrpv_fixup, hfilter, List.getLast?_nil, hmiss]

/-- The RRPV fix-up touches only the RRPV and signature grids. -/
theorem hawk_rrpv_fixup_preserves (t : cache_state hawk_ext) (E2 : hawk_ext)
    (np : Bool) (pc addr : Nat) :
    (hawk_rrpv_fixup t E2 np pc addr).check_calls = E2.check_calls ∧
    (hawk_rrpv_fixup t E2 np pc addr).perset_timer = E2.perset_timer ∧
    (hawk_rrpv_fixup t E2 np pc addr).perset_optgen = E2.perset_optgen ∧
    (hawk_rrpv_fixup t E2 np pc addr).addr_history = E2.addr_history ∧
    (hawk_rrpv_fixup t E2 np pc addr).pred_log = E2.pred_log := by
  simp only [hawk_rrpv_fixup]
  rcases hL : ((List.range t.ways).filter
      (fun i => ((addr >>> t.idx_shift) ||| VALID) ==
        (t.tags.getD (((addr >>> t.idx_shift) &&& (t.sets - 1)) * t.ways + i) 0 &&&
          not64 DIRTY))).getLast? with _ | w <;> simp only [hL]
  · refine ⟨?_, ?_, ?_, ?_, ?_⟩ <;> first | trivial | rfl
  · cases np <;> refine ⟨?_, ?_, ?_, ?_, ?_⟩ <;> first | trivial | rfl

/-- When some way of the indexed set is cache-averse, hawkeye victimize takes
the early path: it replaces that way's tag and touches nothing else. -/
theorem hawkeye_victimize_averse (t : cache_state hawk_ext) (pc addr : Nat)
    (h : ((List.range t.ways).find? (fun i => t.ext.rrpv.getD
        (((addr >>> t.idx_shift) &&& (t.sets - 1)) * t.ways + i) 0 == MAX_RRPV)).isSome =
      true) :
    ∃ w v, hawkeye_victimize t pc addr =
        some ({ t with tags := t.tags.set (((addr >>> t.idx_shift) &&& (t.sets - 1)) * t.ways + w) ((addr >>> t.idx_shift) ||| VALID) }, v) ∧
      w < t.ways := by
  rw [Option.isSome_iff_exists] at h
  obtain ⟨w, hw⟩ := h
  refine ⟨w, t.tags.getD (((addr >>> t.idx_shift) &&& (t.sets - 1)) * t.ways + w) 0, ?_,
    List.mem_range.mp (List.mem_of_find?_eq_some hw)⟩
  simp only [hawkeye_victimize, hw]

/-- The writeback/refill tail changes only statistics. -/
theorem wb_and_refill_fst_fields {ε : Type} (t : cache_state ε) (v : Nat)
    (mh : Bool) (addr : Nat) :
    (wb_and_refill t v mh addr).1.ext = t.ext ∧
    (wb_and_refill t v mh addr).1.tags = t.tags ∧
    (wb_and_refill t v mh addr).1.sets = t.sets ∧
    (wb_and_refill t v mh addr).1.ways = t.ways ∧
    (wb_and_refill t v mh addr).1.linesz = t.linesz ∧
    (wb_and_refill t v mh addr).1.idx_shift = t.idx_shift := by
  by_cases hd : v &&& (VALID ||| DIRTY) = VALID ||| DIRTY <;>
    simp [wb_and_refill, hd]

/-- A successful hawkeye victimize leaves the per-set timers, the OPTgen
engines, the sampler histories and `check_calls` untouched, whatever branch it
takes; its only predictor training is the one decrement of the LRU fallback
path, taken exactly when no way of the indexed set is cache-averse. -/
theorem hawkeye_victimize_ext (t : cache_state hawk_ext) (pc a : Nat)
    (r : cache_state hawk_ext × Nat) (h : hawkeye_victimize t pc a = some r) :
    r.1.sets = t.sets ∧ r.1.ways = t.ways ∧ r.1.idx_shift = t.idx_shift ∧
    r.1.ext.check_calls = t.ext.check_calls ∧
    r.1.ext.perset_timer = t.ext.perset_timer ∧
    r.1.ext.perset_optgen = t.ext.perset_optgen ∧
    r.1.ext.addr_history = t.ext.addr_history ∧
    ∃ lv, r.1.ext.pred_log = t.ext.pred_log ++ lv ∧
      lv.length = (if ((List.range t.ways).find?
          (fun i => t.ext.rrpv.getD (((a >>> t.idx_shift) &&& (t.sets - 1)) * t.ways + i) 0 ==
            MAX_RRPV)).isSome
        then 0 else 1) := by
  rcases hf : (List.range t.ways).find?
      (fun i => t.ext.rrpv.getD (((a >>> t.idx_shift) &&& (t.sets - 1)) * t.ways + i) 0 ==
        MAX_RRPV) with _ | i
  · by_cases hw0 : t.ways = 0
    · simp [hawkeye_victimize, hf, hw0] at h
    · simp only [hawkeye_victimize, hf, if_neg hw0, Option.some.injEq] at h
      subst h
      by_cases hnp : predictor_get_prediction t.ext.demand_predictor pc = false
      · simp only [if_pos hnp]
        refine ⟨?_, ?_, ?_, ?_, ?_, ?_, ?_, ?_⟩ <;>
          first | trivial | rfl | exact ⟨_, rfl, rfl⟩
      · simp only [if_neg hnp]
        refine ⟨?_, ?_, ?_, ?_, ?_, ?_, ?_, ?_⟩ <;>
          first | trivial | rfl | exact ⟨_, rfl, rfl⟩
  · simp only [hawkeye_victimize, hf, Option.some.injEq] at h
    subst h
    exact ⟨rfl, rfl, rfl, rfl, rfl, rfl, rfl, [], (List.append_nil _).symm, rfl⟩

/-- C9: for every store access that misses on a Hawkeye cache, `check_tag` is
invoked twice within that single access (the lookup, and the re-lookup that
sets the DIRTY bit after the fill), so `perset_timer[set]` advances by 2 (mod
`TIMER_SIZE`), two OPTgen accesses are recorded and `check_calls` grows by 2 —
unconditionally; the demand predictor, however, is trained exactly
`(1 if the line was already in the sampler) + (1 if the eviction takes the LRU
fallback, i.e. no way has rrpv = MAX_RRPV) + 1` times (the final 1 from the
second `check_tag`, which always finds the sampler entry the first call
created) — between one and three times, not always twice. -/
theorem hawkeye_store_miss_double_update
    (s : cache_state hawk_ext) (mh : Bool) (pc addr bytes : Nat)
    (SET stag : Nat)
    (hSET : SET = (addr >>> s.idx_shift) &&& (s.sets - 1))
    (hstag : stag = (addr >>> s.idx_shift) ||| VALID)
    (hsets : 0 < s.sets)
    (hlt : s.ext.perset_timer.length = s.sets)
    (hlo : s.ext.perset_optgen.length = s.sets)
    (hlh : s.ext.addr_history.length = s.sets)
    (hmiss : cache_sim_check_tag s addr = none)
    (s9 : cache_state hawk_ext) (tr : List dcall_t)
    (hacc : cache_sim_access hawkeye_check_tag hawkeye_victimize set_dirty
        s mh pc addr bytes true = some (s9, tr)) :
    s9.ext.check_calls = s.ext.check_calls + 2 ∧
    s9.ext.perset_timer.getD SET 0 = (s.ext.perset_timer.getD SET 0 + 2) % TIMER_SIZE ∧
    (s9.ext.perset_optgen.getD SET (OPTgen.init (s.ways - 2))).num_accesses =
      (s.ext.perset_optgen.getD SET (OPTgen.init (s.ways - 2))).num_accesses + 2 ∧
    ∃ l, s9.ext.pred_log = s.ext.pred_log ++ l ∧
      l.length =
        (if (map_find? (s.ext.addr_history.getD SET []) stag).isSome then 1 else 0) +
        (if ((List.range s.ways).find?
            (fun i => s.ext.rrpv.getD (SET * s.ways + i) 0 == MAX_RRPV)).isSome
          then 0 else 1) + 1 := by
  subst hSET hstag
  have hmiss1 : cache_sim_check_tag (bump_access s bytes true) addr = none := by
    rw [cache_sim_check_tag_bump]
    exact hmiss
  have hct1 := hawkeye_check_tag_miss (bump_access s bytes true) pc addr hmiss1
  obtain ⟨c1, t1, tl1, ol1, hl1, o1, f1, r1, l1, hl1e, hl1n⟩ :=
    hawk_sampler_update_spec (bump_access s bytes true) pc addr
      ((addr >>> s.idx_shift) &&& (s.sets - 1)) ((addr >>> s.idx_shift) ||| VALID)
      rfl rfl hsets hlt hlo hlh
  unfold cache_sim_access at hacc
  split at hacc
  next s2 p heq =>
    rw [hct1] at heq
    exact absurd (congrArg Prod.snd heq) (by simp)
  next s2 heq =>
  rw [hct1] at heq
  rw [Prod.mk.injEq] at heq
  obtain ⟨hfst, -⟩ := heq
  have hs2ext : s2.ext = (hawk_sampler_update (bump_access s bytes true) pc addr).1 := by
    rw [← hfst]
  have hs2sets : s2.sets = s.sets := by rw [← hfst]; rfl
  have hs2ways : s2.ways = s.ways := by rw [← hfst]; rfl
  have hs2idx : s2.idx_shift = s.idx_shift := by rw [← hfst]; rfl
  split at hacc
  next heq2 => exact Option.noConfusion hacc
  next s4 victim heq2 =>
  obtain ⟨h4sets, h4ways, h4idx, h4cc, h4t, h4o, h4h, lv, h4pl, hlvn⟩ :=
    hawkeye_victimize_ext (bump_miss s2 true) pc addr (s4, victim) heq2
  have h4cc' : s4.ext.check_calls = s2.ext.check_calls := h4cc
  have h4t' : s4.ext.perset_timer = s2.ext.perset_timer := h4t
  have h4o' : s4.ext.perset_optgen = s2.ext.perset_optgen := h4o
  have h4h' : s4.ext.addr_history = s2.ext.addr_history := h4h
  have h4pl' : s4.ext.pred_log = s2.ext.pred_log ++ lv := h4pl
  have h4sets' : s4.sets = s.sets := (show s4.sets = s2.sets from h4sets).trans hs2sets
  have h4ways' : s4.ways = s.ways := (show s4.ways = s2.ways from h4ways).trans hs2ways
  have h4idx' : s4.idx_shift = s.idx_shift :=
    (show s4.idx_shift = s2.idx_shift from h4idx).trans hs2idx
  have hlvn' : lv.length = (if ((List.range s2.ways).find?
      (fun i => s2.ext.rrpv.getD
        (((addr >>> s2.idx_shift) &&& (s2.sets - 1)) * s2.ways + i) 0 == MAX_RRPV)).isSome
    then 0 else 1) := hlvn
  rw [hs2ways, hs2idx, hs2sets, hs2ext, r1] at hlvn'
  have hlvn2 : lv.length = (if ((List.range s.ways).find?
      (fun i => s.ext.rrpv.getD
        (((addr >>> s.idx_shift) &&& (s.sets - 1)) * s.ways + i) 0 == MAX_RRPV)).isSome
    then 0 else 1) := hlvn'
  simp only [eq_self_iff_true, if_true] at hacc
  split at hacc
  next s6 q heq3 =>
    simp only [Option.some.injEq, Prod.mk.injEq] at hacc
    obtain ⟨hs9, -⟩ := hacc
    subst hs9
    simp only [hawkeye_check_tag, Prod.mk.injEq] at heq3
    obtain ⟨hs6, -⟩ := heq3
    have hs6ext : s6.ext = hawk_rrpv_fixup (wb_and_refill s4 victim mh addr).1
        (hawk_sampler_update (wb_and_refill s4 victim mh addr).1 pc addr).1
        (hawk_sampler_update (wb_and_refill s4 victim mh addr).1 pc addr).2 pc addr := by
      rw [← hs6]
    have hwb := wb_and_refill_fst_fields s4 victim mh addr
    have h5sets : (wb_and_refill s4 victim mh addr).1.sets = s.sets :=
      hwb.2.2.1.trans h4sets'
    have h5ways : (wb_and_refill s4 victim mh addr).1.ways = s.ways :=
      hwb.2.2.2.1.trans h4ways'
    have h5idx : (wb_and_refill s4 victim mh addr).1.idx_shift = s.idx_shift :=
      hwb.2.2.2.2.2.trans h4idx'
    have h5cc : (wb_and_refill s4 victim mh addr).1.ext.check_calls =
        (hawk_sampler_update (bump_access s bytes true) pc addr).1.check_calls := by
      rw [hwb.1, h4cc', hs2ext]
    have h5t : (wb_and_refill s4 victim mh addr).1.ext.perset_timer =
        (hawk_sampler_update (bump_access s bytes true) pc addr).1.perset_timer := by
      rw [hwb.1, h4t', hs2ext]
    have h5o : (wb_and_refill s4 victim mh addr).1.ext.perset_optgen =
        (hawk_sampler_update (bump_access s bytes true) pc addr).1.perset_optgen := by
      rw [hwb.1, h4o', hs2ext]
    have h5h : (wb_and_refill s4 victim mh addr).1.ext.addr_history =
        (hawk_sampler_update (bump_access s bytes true) pc addr).1.addr_history := by
      rw [hwb.1, h4h', hs2ext]
    have h5pl : (wb_and_refill s4 victim mh addr).1.ext.pred_log =
        (hawk_sampler_update (bump_access s bytes true) pc addr).1.pred_log ++ lv := by
      rw [hwb.1, h4pl', hs2ext]
    obtain ⟨c2, t2, tl2, ol2, hl2, o2, f2, r2, l2, hl2e, hl2n⟩ :=
      hawk_sampler_update_spec (wb_and_refill s4 victim mh addr).1 pc addr
        ((addr >>> s.idx_shift) &&& (s.sets - 1)) ((addr >>> s.idx_shift) ||| VALID)
        (by rw [h5idx, h5sets]) (by rw [h5idx])
        (by rw [h5sets]; exact hsets)
        (by rw [h5t, h5sets]; exact tl1)
        (by rw [h5o, h5sets]; exact ol1)
        (by rw [h5h, h5sets]; exact hl1)
    have fixp := hawk_rrpv_fixup_preserves (wb_and_refill s4 victim mh addr).1
      (hawk_sampler_update (wb_and_refill s4 victim mh addr).1 pc addr).1
      (hawk_sampler_update (wb_and_refill s4 victim mh addr).1 pc addr).2 pc addr
    have hsde : (set_dirty s6 q).ext = s6.ext := rfl
    have hsamp2 : (map_find? ((wb_and_refill s4 victim mh addr).1.ext.addr_history.getD
        ((addr >>> s.idx_shift) &&& (s.sets - 1)) [])
        ((addr >>> s.idx_shift) ||| VALID)).isSome = true := by
      rw [h5h]
      exact f1
    rw [hsamp2, if_pos rfl] at hl2n
    obtain ⟨e2, he2⟩ := List.length_eq_one.mp hl2n
    subst he2
    have hl1n' : l1.length = (if (map_find? (s.ext.addr_history.getD
        ((addr >>> s.idx_shift) &&& (s.sets - 1)) [])
        ((addr >>> s.idx_shift) ||| VALID)).isSome then 1 else 0) := hl1n
    refine ⟨?_, ?_, ?_, l1 ++ (lv ++ [e2]), ?_, ?_⟩
    · rw [hsde, hs6ext, fixp.1, c2, h5cc, c1]
      rfl
    · rw [hsde, hs6ext, fixp.2.1, t2, h5t, t1]
      show ((s.ext.perset_timer.getD ((addr >>> s.idx_shift) &&& (s.sets - 1)) 0 + 1) %
          TIMER_SIZE + 1) % TIMER_SIZE = _
      rw [Nat.mod_add_mod]
    · have hdef : OPTgen.init ((wb_and_refill s4 victim mh addr).1.ways - 2) =
          OPTgen.init (s.ways - 2) := by rw [h5ways]
      rw [hdef] at o2
      have o1s : ((hawk_sampler_update (bump_access s bytes true) pc addr).1.perset_optgen.getD
            ((addr >>> s.idx_shift) &&& (s.sets - 1)) (OPTgen.init (s.ways - 2))).num_accesses =
          (s.ext.perset_optgen.getD ((addr >>> s.idx_shift) &&& (s.sets - 1))
            (OPTgen.init (s.ways - 2))).num_accesses + 1 := o1
      rw [hsde, hs6ext, fixp.2.2.1, o2, h5o, o1s]
    · rw [hsde, hs6ext, fixp.2.2.2.2, hl2e, h5pl, hl1e]
      show s.ext.pred_log ++ l1 ++ lv ++ [e2] = _
      rw [List.append_assoc, List.append_assoc]
    · rw [List.length_append, List.length_append, hl1n', hlvn2]
      exact (Nat.add_assoc _ _ _).symm
  next heq3 => exact Option.noConfusion hacc

/-- C9 counterexample: a single store miss on a fresh Hawkeye cache invokes
check_tag twice, yet trains the demand predictor only once, not twice — the
first check_tag call is a first sighting in the sampler (no training) and the
victimize takes the cache-averse path (no training there either); only the
second check_tag call, which finds the entry the first one inserted, trains. -/
theorem hawkeye_store_miss_trains_once_counterexample :
    ((cache_sim_access hawkeye_check_tag hawkeye_victimize set_dirty
        (hawkeye_init 1 2 8) false 5 0 4 true).map
      (fun p => p.1.ext.pred_log.length)) = some 1 ∧ (1 : Nat) ≠ 2 := by
  exact ⟨rfl, by decide⟩

/-- C9 witness: the amended statement applied at `c9_state`, whose sampler
already holds line 0 and whose set has a cache-averse way, so the predictor is
trained 1 + 0 + 1 = 2 times there. -/
theorem hawkeye_store_miss_double_update_witness :
    ((c9_result.getD (c9_state, [])).1.ext.check_calls = c9_state.ext.check_calls + 2) ∧
    (c9_result.getD (c9_state, [])).1.ext.perset_timer.getD 0 0 =
      (c9_state.ext.perset_timer.getD 0 0 + 2) % TIMER_SIZE ∧
    ((c9_result.getD (c9_state, [])).1.ext.perset_optgen.getD 0
        (OPTgen.init (c9_state.ways - 2))).num_accesses =
      (c9_state.ext.perset_optgen.getD 0 (OPTgen.init (c9_state.ways - 2))).num_accesses + 2 ∧
    ∃ l, (c9_result.getD (c9_state, [])).1.ext.pred_log = c9_state.ext.pred_log ++ l ∧
      l.length =
        (if (map_find? (c9_state.ext.addr_history.getD 0 []) 9223372036854775808).isSome
          then 1 else 0) +
        (if ((List.range c9_state.ways).find?
            (fun i => c9_state.ext.rrpv.getD (0 * c9_state.ways + i) 0 == MAX_RRPV)).isSome
          then 0 else 1) + 1 :=
  hawkeye_store_miss_double_update c9_state false 9 0 4 0 9223372036854775808
    rfl rfl (by decide) rfl rfl rfl rfl
    (c9_result.getD (c9_state, [])).1 (c9_result.getD (c9_state, [])).2 rfl

/-- A successful scan means some way of the indexed set matches under the
mask. -/
theorem cache_sim_check_tag_some {ε : Type} (s : cache_state ε) (addr p : Nat)
    (h : cache_sim_check_tag s addr = some p) :
    ∃ i, i < s.ways ∧
      (s.tags.getD (((addr >>> s.idx_shift) &&& (s.sets - 1)) * s.ways + i) 0 &&&
        not64 DIRTY) = (addr >>> s.idx_shift) ||| VALID := by
  unfold cache_sim_check_tag at h
  rw [Option.map_eq_some'] at h
  obtain ⟨i, hf, -⟩ := h
  refine ⟨i, List.mem_range.mp (List.mem_of_find?_eq_some hf), ?_⟩
  have hp := List.find?_some hf
  simp only [beq_iff_eq] at hp
  exact hp.symm

/-- The counter bumps do not touch the miss counters of interest, the tag
array, or the geometry. -/
theorem bump_access_fields {ε : Type} (s : cache_state ε) (bytes : Nat) (st : Bool) :
    (bump_access s bytes st).tags = s.tags ∧
    (bump_access s bytes st).sets = s.sets ∧
    (bump_access s bytes st).ways = s.ways ∧
    (bump_access s bytes st).idx_shift = s.idx_shift ∧
    (bump_access s bytes st).ext = s.ext ∧
    (bump_access s bytes st).stats.read_misses = s.stats.read_misses ∧
    (bump_access s bytes st).stats.write_misses = s.stats.write_misses := by
  cases st <;> exact ⟨rfl, rfl, rfl, rfl, rfl, rfl, rfl⟩

/-- The miss-counter bump does not touch the tag array, the geometry, or the
policy extension. -/
theorem bump_miss_fields {ε : Type} (s : cache_state ε) (st : Bool) :
    (bump_miss s st).tags = s.tags ∧
    (bump_miss s st).sets = s.sets ∧
    (bump_miss s st).ways = s.ways ∧
    (bump_miss s st).idx_shift = s.idx_shift ∧
    (bump_miss s st).ext = s.ext := by
  cases st <;> exact ⟨rfl, rfl, rfl, rfl, rfl⟩

/-- After any successful access, the accessed line is present: some way of the
indexed set matches the line tag under the comparison mask.  Generic over any
policy whose `check_tag` performs the base scan without touching the tag array
and whose `victimize` replaces exactly one in-set way with the clean new tag
(an invariant `Q` on states, preserved by the hooks, carries the linear
policy's cursor-range requirement). -/
theorem access_installs_line {ε : Type}
    (check_tag : cache_state ε → Nat → Nat → cache_state ε × Option Nat)
    (victimize : cache_state ε → Nat → Nat → Option (cache_state ε × Nat))
    (Q : cache_state ε → Prop)
    (hck : ∀ t pc a, (check_tag t pc a).2 = cache_sim_check_tag t a ∧
        (check_tag t pc a).1.tags = t.tags ∧
        (check_tag t pc a).1.sets = t.sets ∧
        (check_tag t pc a).1.ways = t.ways ∧
        (check_tag t pc a).1.idx_shift = t.idx_shift)
    (hckQ : ∀ t pc a, Q t → Q (check_tag t pc a).1)
    (hQext : ∀ t t' : cache_state ε, t'.ext = t.ext → t'.ways = t.ways → Q t → Q t')
    (hvq : ∀ t pc a r, Q t → victimize t pc a = some r →
        r.1.sets = t.sets ∧ r.1.ways = t.ways ∧ r.1.idx_shift = t.idx_shift ∧
        ∃ way, way < t.ways ∧
          r.1.tags = t.tags.set (((a >>> t.idx_shift) &&& (t.sets - 1)) * t.ways + way)
            ((a >>> t.idx_shift) ||| VALID))
    (s : cache_state ε) (mh : Bool) (pc addr bytes : Nat) (store : Bool)
    (s1 : cache_state ε) (tr : List dcall_t)
    (hQ : Q s) (hsets : 0 < s.sets) (hlen : s.tags.length = s.sets * s.ways)
    (haddr : addr < 2 ^ 64) (hsh : 3 ≤ s.idx_shift)
    (hacc : cache_sim_access check_tag victimize set_dirty s mh pc addr bytes store =
      some (s1, tr)) :
    s1.sets = s.sets ∧ s1.ways = s.ways ∧ s1.idx_shift = s.idx_shift ∧
    s1.tags.length = s.tags.length ∧
    ∃ i, i < s.ways ∧
      (s1.tags.getD (((addr >>> s.idx_shift) &&& (s.sets - 1)) * s.ways + i) 0 &&&
        not64 DIRTY) = (addr >>> s.idx_shift) ||| VALID := by
  have hb := bump_access_fields s bytes store
  unfold cache_sim_access at hacc
  split at hacc
  next s2 p hct =>
    have hckb := hck (bump_access s bytes store) pc addr
    rw [hct] at hckb
    have hscan : cache_sim_check_tag (bump_access s bytes store) addr = some p :=
      hckb.1.symm
    rw [cache_sim_check_tag_bump] at hscan
    obtain ⟨i, hi, hm⟩ := cache_sim_check_tag_some s addr p hscan
    have h2tags : s2.tags = s.tags := hckb.2.1.trans hb.1
    have h2sets : s2.sets = s.sets := hckb.2.2.1.trans hb.2.1
    have h2ways : s2.ways = s.ways := hckb.2.2.2.1.trans hb.2.2.1
    have h2sh : s2.idx_shift = s.idx_shift := hckb.2.2.2.2.trans hb.2.2.2.1
    simp only [Option.some.injEq, Prod.mk.injEq] at hacc
    obtain ⟨hs1, -⟩ := hacc
    cases store
    · simp only [Bool.false_eq_true, if_false] at hs1
      subst hs1
      exact ⟨h2sets, h2ways, h2sh, by rw [h2tags], i, hi, by rw [h2tags]; exact hm⟩
    · simp only [if_true] at hs1
      subst hs1
      refine ⟨h2sets, h2ways, h2sh, ?_, i, hi, ?_⟩
      · show (s2.tags.set p (s2.tags.getD p 0 ||| DIRTY)).length = s.tags.length
        rw [List.length_set, h2tags]
      · show ((s2.tags.set p (s2.tags.getD p 0 ||| DIRTY)).getD
            (((addr >>> s.idx_shift) &&& (s.sets - 1)) * s.ways + i) 0 &&& not64 DIRTY) =
          (addr >>> s.idx_shift) ||| VALID
        rw [masked_getD_set_or_dirty, h2tags]
        exact hm
  next s2 hct =>
    have hckb := hck (bump_access s bytes store) pc addr
    rw [hct] at hckb
    have h2tags : s2.tags = s.tags := hckb.2.1.trans hb.1
    have h2sets : s2.sets = s.sets := hckb.2.2.1.trans hb.2.1
    have h2ways : s2.ways = s.ways := hckb.2.2.2.1.trans hb.2.2.1
    have h2sh : s2.idx_shift = s.idx_shift := hckb.2.2.2.2.trans hb.2.2.2.1
    have h2ext : Q s2 := by
      have hQb : Q (bump_access s bytes store) := hQext s _ hb.2.2.2.2.1 hb.2.2.1 hQ
      have h := hckQ (bump_access s bytes store) pc addr hQb
      rw [hct] at h
      exact h
    have hbm := bump_miss_fields s2 store
    have hQm : Q (bump_miss s2 store) := hQext s2 _ hbm.2.2.2.2 hbm.2.2.1 h2ext
    split at hacc
    next hvic => exact Option.noConfusion hacc
    next s4 victim hvic =>
    obtain ⟨h4sets, h4ways, h4sh, way, hway, htags4⟩ :=
      hvq (bump_miss s2 store) pc addr (s4, victim) hQm hvic
    rw [hbm.2.2.1, h2ways] at hway
    rw [hbm.1, hbm.2.1, hbm.2.2.1, hbm.2.2.2.1, h2tags, h2sets, h2ways, h2sh] at htags4
    have h4sets' : s4.sets = s.sets := (h4sets.trans hbm.2.1).trans h2sets
    have h4ways' : s4.ways = s.ways := (h4ways.trans hbm.2.2.1).trans h2ways
    have h4sh' : s4.idx_shift = s.idx_shift := (h4sh.trans hbm.2.2.2.1).trans h2sh
    have hidx : (addr >>> s.idx_shift) &&& (s.sets - 1) < s.sets :=
      lt_of_le_of_lt Nat.and_le_right (by omega)
    have hpos : ((addr >>> s.idx_shift) &&& (s.sets - 1)) * s.ways + way < s.tags.length := by
      rw [hlen]
      calc ((addr >>> s.idx_shift) &&& (s.sets - 1)) * s.ways + way
          < (((addr >>> s.idx_shift) &&& (s.sets - 1)) + 1) * s.ways := by
            rw [Nat.succ_mul]; omega
        _ ≤ s.sets * s.ways := Nat.mul_le_mul_right _ hidx
    have hmask : ((addr >>> s.idx_shift) ||| VALID) &&& not64 DIRTY =
        (addr >>> s.idx_shift) ||| VALID :=
      masked_clean_tag _ (shifted_addr_lt addr s.idx_shift haddr hsh)
    have hwb := wb_and_refill_fst_fields s4 victim mh addr
    cases store
    · simp only [Bool.false_eq_true, if_false, Option.some.injEq, Prod.mk.injEq] at hacc
      obtain ⟨hs1, -⟩ := hacc
      subst hs1
      refine ⟨hwb.2.2.1.trans h4sets', hwb.2.2.2.1.trans h4ways',
        hwb.2.2.2.2.2.trans h4sh', ?_, way, hway, ?_⟩
      · rw [hwb.2.1, htags4, List.length_set]
      · rw [hwb.2.1, htags4, getD_set_self _ _ _ _ hpos]
        exact hmask
    · simp only [if_true] at hacc
      split at hacc
      next s6 p2 hct2 =>
        have hck6 := hck (wb_and_refill s4 victim mh addr).1 pc addr
        rw [hct2] at hck6
        have h6tags : s6.tags = s4.tags := hck6.2.1.trans hwb.2.1
        have h6sets : s6.sets = s.sets := (hck6.2.2.1.trans hwb.2.2.1).trans h4sets'
        have h6ways : s6.ways = s.ways := (hck6.2.2.2.1.trans hwb.2.2.2.1).trans h4ways'
        have h6sh : s6.idx_shift = s.idx_shift :=
          (hck6.2.2.2.2.trans hwb.2.2.2.2.2).trans h4sh'
        simp only [Option.some.injEq, Prod.mk.injEq] at hacc
        obtain ⟨hs1, -⟩ := hacc
        subst hs1
        refine ⟨h6sets, h6ways, h6sh, ?_, way, hway, ?_⟩
        · show (s6.tags.set p2 (s6.tags.getD p2 0 ||| DIRTY)).length = s.tags.length
          rw [List.length_set, h6tags, htags4, List.length_set]
        · show ((s6.tags.set p2 (s6.tags.getD p2 0 ||| DIRTY)).getD
              (((addr >>> s.idx_shift) &&& (s.sets - 1)) * s.ways + way) 0 &&& not64 DIRTY) =
            (addr >>> s.idx_shift) ||| VALID
          rw [masked_getD_set_or_dirty, h6tags, htags4, getD_set_self _ _ _ _ hpos]
          exact hmask
      next hct2 => exact Option.noConfusion hacc

/-- When the accessed line is already present, the access is a hit: `check_tag`
returns a location, the trace is empty, and the two miss counters are
untouched.  Generic over any policy whose `check_tag` performs the base scan
without touching the statistics. -/
theorem access_hit_of_present {ε : Type}
    (check_tag : cache_state ε → Nat → Nat → cache_state ε × Option Nat)
    (victimize : cache_state ε → Nat → Nat → Option (cache_state ε × Nat))
    (hck : ∀ t pc a, (check_tag t pc a).2 = cache_sim_check_tag t a ∧
        (check_tag t pc a).1.stats = t.stats)
    (s : cache_state ε) (mh : Bool) (pc addr bytes : Nat) (store : Bool)
    (hpres : ∃ i, i < s.ways ∧
      (s.tags.getD (((addr >>> s.idx_shift) &&& (s.sets - 1)) * s.ways + i) 0 &&&
        not64 DIRTY) = (addr >>> s.idx_shift) ||| VALID) :
    ∃ s2, cache_sim_access check_tag victimize set_dirty s mh pc addr bytes store =
        some (s2, []) ∧
      ((check_tag (bump_access s bytes store) pc addr).2).isSome = true ∧
      s2.stats.read_misses = s.stats.read_misses ∧
      s2.stats.write_misses = s.stats.write_misses := by
  have hsome : (cache_sim_check_tag (bump_access s bytes store) addr).isSome = true := by
    rw [cache_sim_check_tag_bump]
    exact cache_sim_check_tag_isSome s addr hpres
  have hckb := hck (bump_access s bytes store) pc addr
  rcases hct : check_tag (bump_access s bytes store) pc addr with ⟨t2, o⟩
  rw [hct] at hckb
  have ho : o = cache_sim_check_tag (bump_access s bytes store) addr := hckb.1
  rw [← ho] at hsome
  rcases o with _ | p
  · exact absurd hsome (by simp)
  · have hs2stats : (if store then set_dirty t2 p else t2).stats = t2.stats := by
      cases store <;> rfl
    have ht2 : t2.stats = (bump_access s bytes store).stats := hckb.2
    refine ⟨if store then set_dirty t2 p else t2, ?_, ?_, ?_, ?_⟩
    · unfold cache_sim_access
      rw [hct]
    · rfl
    · rw [hs2stats, ht2]
      exact (bump_access_fields s bytes store).2.2.2.2.2.1
    · rw [hs2stats, ht2]
      exact (bump_access_fields s bytes store).2.2.2.2.2.2

/-- The base `check_tag` hook is the plain scan and changes nothing. -/
theorem base_check_tag_spec {ε : Type} (t : cache_state ε) (pc a : Nat) :
    (base_check_tag t pc a).2 = cache_sim_check_tag t a ∧
    (base_check_tag t pc a).1.tags = t.tags ∧
    (base_check_tag t pc a).1.sets = t.sets ∧
    (base_check_tag t pc a).1.ways = t.ways ∧
    (base_check_tag t pc a).1.idx_shift = t.idx_shift :=
  ⟨rfl, rfl, rfl, rfl, rfl⟩

/-- Hawkeye's `check_tag` returns the base scan and changes only `ext`. -/
theorem hawkeye_check_tag_spec (t : cache_state hawk_ext) (pc a : Nat) :
    (hawkeye_check_tag t pc a).2 = cache_sim_check_tag t a ∧
    (hawkeye_check_tag t pc a).1.tags = t.tags ∧
    (hawkeye_check_tag t pc a).1.sets = t.sets ∧
    (hawkeye_check_tag t pc a).1.ways = t.ways ∧
    (hawkeye_check_tag t pc a).1.idx_shift = t.idx_shift :=
  ⟨rfl, rfl, rfl, rfl, rfl⟩

/-- A successful random-policy victimize replaces exactly one in-set way with
the clean new tag. -/
theorem cache_sim_victimize_spec (t : cache_state Unit) (pc a : Nat)
    (r : cache_state Unit × Nat) (h : cache_sim_victimize t pc a = some r) :
    r.1.sets = t.sets ∧ r.1.ways = t.ways ∧ r.1.idx_shift = t.idx_shift ∧
    ∃ way, way < t.ways ∧
      r.1.tags = t.tags.set (((a >>> t.idx_shift) &&& (t.sets - 1)) * t.ways + way)
        ((a >>> t.idx_shift) ||| VALID) := by
  by_cases hw : t.ways = 0
  · simp [cache_sim_victimize, hw] at h
  · simp only [cache_sim_victimize, if_neg hw, Option.some.injEq] at h
    subst h
    exact ⟨rfl, rfl, rfl, lfsr_next t.lfsr % t.ways,
      Nat.mod_lt _ (Nat.pos_of_ne_zero hw), rfl⟩

/-- An association-list lookup with default 0 stays below `w` when every
stored value does and `w` is positive. -/
theorem assoc_getD_lt (m : List (Nat × Nat)) (k w : Nat) (hw : 0 < w)
    (hm : ∀ e ∈ m, e.2 < w) : assoc_getD m k 0 < w := by
  unfold assoc_getD
  rcases hf : m.find? (fun e => e.1 == k) with _ | e
  · rw [hf]
    exact hw
  · rw [hf]
    exact hm e (List.mem_of_find?_eq_some hf)

/-- A successful linear-evict victimize replaces exactly one in-set way with
the clean new tag, provided every cursor stored in the map is below `ways`. -/
theorem linear_evict_victimize_spec (t : cache_state (List (Nat × Nat))) (pc a : Nat)
    (r : cache_state (List (Nat × Nat)) × Nat)
    (hQ : ∀ e ∈ t.ext, e.2 < t.ways)
    (h : linear_evict_victimize t pc a = some r) :
    r.1.sets = t.sets ∧ r.1.ways = t.ways ∧ r.1.idx_shift = t.idx_shift ∧
    ∃ way, way < t.ways ∧
      r.1.tags = t.tags.set (((a >>> t.idx_shift) &&& (t.sets - 1)) * t.ways + way)
        ((a >>> t.idx_shift) ||| VALID) := by
  by_cases hw : t.ways = 0
  · simp [linear_evict_victimize, hw] at h
  · simp only [linear_evict_victimize, if_neg hw, Option.some.injEq] at h
    subst h
    exact ⟨rfl, rfl, rfl, assoc_getD t.ext ((a >>> t.idx_shift) &&& (t.sets - 1)) 0,
      assoc_getD_lt _ _ _ (Nat.pos_of_ne_zero hw) hQ, rfl⟩

/-- A successful Hawkeye victimize replaces exactly one in-set way with the
clean new tag (both the cache-averse branch and the LRU fallback do). -/
theorem hawkeye_victimize_spec (t : cache_state hawk_ext) (pc a : Nat)
    (r : cache_state hawk_ext × Nat) (h : hawkeye_victimize t pc a = some r) :
    r.1.sets = t.sets ∧ r.1.ways = t.ways ∧ r.1.idx_shift = t.idx_shift ∧
    ∃ way, way < t.ways ∧
      r.1.tags = t.tags.set (((a >>> t.idx_shift) &&& (t.sets - 1)) * t.ways + way)
        ((a >>> t.idx_shift) ||| VALID) := by
  rcases hf : (List.range t.ways).find?
      (fun i => t.ext.rrpv.getD (((a >>> t.idx_shift) &&& (t.sets - 1)) * t.ways + i) 0 ==
        MAX_RRPV) with _ | i
  · by_cases hw0 : t.ways = 0
    · simp [hawkeye_victimize, hf, hw0] at h
    · simp only [hawkeye_victimize, hf, if_neg hw0, Option.some.injEq] at h
      subst h
      refine ⟨rfl, rfl, rfl, _, ?_, rfl⟩
      exact fold_max_snd_lt _ _ _ (fun i hi => List.mem_range.mp hi) (0, 0)
        (Nat.pos_of_ne_zero hw0)
  · simp only [hawkeye_victimize, hf, Option.some.injEq] at h
    subst h
    exact ⟨rfl, rfl, rfl, i, List.mem_range.mp (List.mem_of_find?_eq_some hf), rfl⟩

/-- A successful fully-associative victimize leaves the accessed line's key in
the map (both branches insert it). -/
theorem fa_victimize_key (t : cache_state (List (Nat × Nat))) (pc a : Nat)
    (r : cache_state (List (Nat × Nat)) × Nat) (h : fa_victimize t pc a = some r) :
    r.1.idx_shift = t.idx_shift ∧ r.1.sets = t.sets ∧ r.1.ways = t.ways ∧
    (map_find? r.1.ext (a >>> t.idx_shift)).isSome = true := by
  by_cases hfull : t.ext.length = t.ways
  · by_cases hw : t.ways = 0
    · simp [fa_victimize, hfull, hw] at h
    · simp only [fa_victimize, if_pos hfull, if_neg hw, List.get?_eq_getElem?] at h
      rcases hget : t.ext[lfsr_next t.lfsr % t.ways]? with _ | e
      · rw [hget] at h
        exact Option.noConfusion h
      · rw [hget] at h
        simp only [Option.some.injEq] at h
        subst h
        refine ⟨rfl, rfl, rfl, ?_⟩
        rw [map_find?_insert_self]
        rfl
  · simp only [fa_victimize, if_neg hfull, Option.some.injEq] at h
    subst h
    refine ⟨rfl, rfl, rfl, ?_⟩
    rw [map_find?_insert_self]
    rfl

/-- After any successful fully-associative access, the accessed line's key is
in the map. -/
theorem fa_access_installs_key (s : cache_state (List (Nat × Nat))) (mh : Bool)
    (pc addr bytes : Nat) (store : Bool)
    (s1 : cache_state (List (Nat × Nat))) (tr : List dcall_t)
    (hacc : cache_sim_access fa_check_tag fa_victimize fa_mark_dirty s mh pc addr bytes
        store = some (s1, tr)) :
    s1.idx_shift = s.idx_shift ∧
    (map_find? s1.ext (addr >>> s.idx_shift)).isSome = true := by
  have hb := bump_access_fields s bytes store
  have hfa : ∀ (t : cache_state (List (Nat × Nat))) (p2 : Nat), fa_check_tag t p2 addr =
      (t, (map_find? t.ext (addr >>> t.idx_shift)).map (fun _ => addr >>> t.idx_shift)) :=
    fun t p2 => rfl
  unfold cache_sim_access at hacc
  split at hacc
  next s2 p hct =>
    rw [hfa, Prod.mk.injEq] at hct
    obtain ⟨hs2, hp⟩ := hct
    have hpres : (map_find? s.ext (addr >>> s.idx_shift)).isSome = true := by
      have h1 : ((map_find? (bump_access s bytes store).ext
          (addr >>> (bump_access s bytes store).idx_shift)).map
            (fun _ => addr >>> (bump_access s bytes store).idx_shift)).isSome = true := by
        rw [hp]
        rfl
      rw [Option.isSome_map'] at h1
      rw [hb.2.2.2.2.1, hb.2.2.2.1] at h1
      exact h1
    simp only [Option.some.injEq, Prod.mk.injEq] at hacc
    obtain ⟨hs1, -⟩ := hacc
    subst hs1
    have hs2' : s2 = bump_access s bytes store := hs2.symm
    subst hs2'
    cases store
    · simp only [Bool.false_eq_true, if_false]
      exact ⟨hb.2.2.2.1, by rw [hb.2.2.2.2.1]; exact hpres⟩
    · simp only [if_true]
      refine ⟨hb.2.2.2.1, ?_⟩
      show (map_find? (map_update (bump_access s bytes true).ext p (fun v => v ||| DIRTY))
        (addr >>> s.idx_shift)).isSome = true
      rw [map_find?_update_isSome, hb.2.2.2.2.1]
      exact hpres
  next s2 hct =>
    have hs2 : s2 = bump_access s bytes store := by
      rw [hfa, Prod.mk.injEq] at hct
      exact hct.1.symm
    have hbm := bump_miss_fields s2 store
    split at hacc
    next hvic => exact Option.noConfusion hacc
    next s4 victim hvic =>
    have hkey := fa_victimize_key (bump_miss s2 store) pc addr (s4, victim) hvic
    have hmsh : (bump_miss s2 store).idx_shift = s.idx_shift := by
      rw [hbm.2.2.2.1, hs2, hb.2.2.2.1]
    rw [hmsh] at hkey
    have hwb := wb_and_refill_fst_fields s4 victim mh addr
    cases store
    · simp only [Bool.false_eq_true, if_false, Option.some.injEq, Prod.mk.injEq] at hacc
      obtain ⟨hs1, -⟩ := hacc
      subst hs1
      exact ⟨hwb.2.2.2.2.2.trans hkey.1, by rw [hwb.1]; exact hkey.2.2.2⟩
    · simp only [if_true] at hacc
      split at hacc
      next s6 p2 hct2 =>
        have hs6 : s6 = (wb_and_refill s4 victim mh addr).1 := by
          rw [hfa, Prod.mk.injEq] at hct2
          exact hct2.1.symm
        simp only [Option.some.injEq, Prod.mk.injEq] at hacc
        obtain ⟨hs1, -⟩ := hacc
        subst hs1
        refine ⟨?_, ?_⟩
        · show s6.idx_shift = s.idx_shift
          rw [hs6]
          exact hwb.2.2.2.2.2.trans hkey.1
        · show (map_find? (map_update s6.ext p2 (fun v => v ||| DIRTY))
            (addr >>> s.idx_shift)).isSome = true
          rw [map_find?_update_isSome, hs6, hwb.1]
          exact hkey.2.2.2
      next hct2 => exact Option.noConfusion hacc

/-- When the accessed line's key is in the map, a fully-associative access is a
hit with an empty trace and untouched miss counters. -/
theorem fa_access_hit_of_present (s : cache_state (List (Nat × Nat))) (mh : Bool)
    (pc addr bytes : Nat) (store : Bool)
    (hpres : (map_find? s.ext (addr >>> s.idx_shift)).isSome = true) :
    ∃ s2, cache_sim_access fa_check_tag fa_victimize fa_mark_dirty s mh pc addr bytes
        store = some (s2, []) ∧
      ((fa_check_tag (bump_access s bytes store) pc addr).2).isSome = true ∧
      s2.stats.read_misses = s.stats.read_misses ∧
      s2.stats.write_misses = s.stats.write_misses := by
  have hfa : fa_check_tag (bump_access s bytes store) pc addr =
      (bump_access s bytes store,
       (map_find? s.ext (addr >>> s.idx_shift)).map (fun _ => addr >>> s.idx_shift)) := by
    cases store <;> rfl
  rw [Option.isSome_iff_exists] at hpres
  obtain ⟨v, hv⟩ := hpres
  refine ⟨if store then fa_mark_dirty (bump_access s bytes store) (addr >>> s.idx_shift)
      else bump_access s bytes store, ?_, ?_, ?_, ?_⟩
  · unfold cache_sim_access
    rw [hfa, hv]
    rfl
  · rw [hfa, hv]
    rfl
  · cases store <;> rfl
  · cases store <;> rfl

/-- Composition for the array-backed policies: a successful access followed by
a same-line access makes the second a hit with untouched miss counters. -/
theorem second_access_same_line_generic {ε : Type}
    (check_tag : cache_state ε → Nat → Nat → cache_state ε × Option Nat)
    (victimize : cache_state ε → Nat → Nat → Option (cache_state ε × Nat))
    (Q : cache_state ε → Prop)
    (hck : ∀ t pc a, (check_tag t pc a).2 = cache_sim_check_tag t a ∧
        (check_tag t pc a).1.tags = t.tags ∧
        (check_tag t pc a).1.sets = t.sets ∧
        (check_tag t pc a).1.ways = t.ways ∧
        (check_tag t pc a).1.idx_shift = t.idx_shift)
    (hstats : ∀ t pc a, (check_tag t pc a).1.stats = t.stats)
    (hckQ : ∀ t pc a, Q t → Q (check_tag t pc a).1)
    (hQext : ∀ t t' : cache_state ε, t'.ext = t.ext → t'.ways = t.ways → Q t → Q t')
    (hvq : ∀ t pc a r, Q t → victimize t pc a = some r →
        r.1.sets = t.sets ∧ r.1.ways = t.ways ∧ r.1.idx_shift = t.idx_shift ∧
        ∃ way, way < t.ways ∧
          r.1.tags = t.tags.set (((a >>> t.idx_shift) &&& (t.sets - 1)) * t.ways + way)
            ((a >>> t.idx_shift) ||| VALID))
    (s : cache_state ε) (mh : Bool) (pc1 addr1 b1 : Nat) (st1 : Bool)
    (pc2 addr2 b2 : Nat) (st2 : Bool) (s1 : cache_state ε) (tr1 : List dcall_t)
    (hQ : Q s) (hsets : 0 < s.sets) (hlen : s.tags.length = s.sets * s.ways)
    (haddr : addr1 < 2 ^ 64) (hsh : 3 ≤ s.idx_shift)
    (hsame : addr2 >>> s.idx_shift = addr1 >>> s.idx_shift)
    (hacc1 : cache_sim_access check_tag victimize set_dirty s mh pc1 addr1 b1 st1 =
      some (s1, tr1)) :
    ∃ s2, cache_sim_access check_tag victimize set_dirty s1 mh pc2 addr2 b2 st2 =
        some (s2, []) ∧
      ((check_tag (bump_access s1 b2 st2) pc2 addr2).2).isSome = true ∧
      s2.stats.read_misses = s1.stats.read_misses ∧
      s2.stats.write_misses = s1.stats.write_misses := by
  obtain ⟨h1sets, h1ways, h1sh, h1len, i, hi, hm⟩ :=
    access_installs_line check_tag victimize Q hck hckQ hQext hvq s mh pc1 addr1 b1 st1
      s1 tr1 hQ hsets hlen haddr hsh hacc1
  refine access_hit_of_present check_tag victimize
    (fun t pc a => ⟨(hck t pc a).1, hstats t pc a⟩) s1 mh pc2 addr2 b2 st2 ?_
  refine ⟨i, ?_, ?_⟩
  · rw [h1ways]
    exact hi
  · rw [h1sh, h1sets, h1ways, hsame]
    exact hm

/-- C5: for every cache of any policy (random, linear, Hawkeye,
fully-associative), in a run of two consecutive accesses whose addresses fall
in the same line (`addr >> idx_shift` equal), the second access is a hit — its
`check_tag` returns non-null — the second access issues no downstream calls,
and the miss counters are unchanged by the second access.  The array-backed
policies assume the well-formedness a constructed cache has (nonzero `sets`,
tag array of size `sets * ways`, a 64-bit address, `linesz ≥ 8`, and for the
linear policy cursors below `ways`). -/
theorem second_access_same_line_hits :
    (∀ (s : cache_state Unit) (mh : Bool) (pc1 addr1 b1 : Nat) (st1 : Bool)
        (pc2 addr2 b2 : Nat) (st2 : Bool) (s1 : cache_state Unit) (tr1 : List dcall_t),
      0 < s.sets → s.tags.length = s.sets * s.ways →
      addr1 < 2 ^ 64 → 3 ≤ s.idx_shift →
      addr2 >>> s.idx_shift = addr1 >>> s.idx_shift →
      cache_sim_access base_check_tag cache_sim_victimize set_dirty s mh pc1 addr1 b1 st1 =
        some (s1, tr1) →
      ∃ s2, cache_sim_access base_check_tag cache_sim_victimize set_dirty s1 mh pc2 addr2
          b2 st2 = some (s2, []) ∧
        ((base_check_tag (bump_access s1 b2 st2) pc2 addr2).2).isSome = true ∧
        s2.stats.read_misses = s1.stats.read_misses ∧
        s2.stats.write_misses = s1.stats.write_misses) ∧
    (∀ (s : cache_state (List (Nat × Nat))) (mh : Bool) (pc1 addr1 b1 : Nat) (st1 : Bool)
        (pc2 addr2 b2 : Nat) (st2 : Bool) (s1 : cache_state (List (Nat × Nat)))
        (tr1 : List dcall_t),
      (∀ e ∈ s.ext, e.2 < s.ways) →
      0 < s.sets → s.tags.length = s.sets * s.ways →
      addr1 < 2 ^ 64 → 3 ≤ s.idx_shift →
      addr2 >>> s.idx_shift = addr1 >>> s.idx_shift →
      cache_sim_access base_check_tag linear_evict_victimize set_dirty s mh pc1 addr1 b1
          st1 = some (s1, tr1) →
      ∃ s2, cache_sim_access base_check_tag linear_evict_victimize set_dirty s1 mh pc2
          addr2 b2 st2 = some (s2, []) ∧
        ((base_check_tag (bump_access s1 b2 st2) pc2 addr2).2).isSome = true ∧
        s2.stats.read_misses = s1.stats.read_misses ∧
        s2.stats.write_misses = s1.stats.write_misses) ∧
    (∀ (s : cache_state hawk_ext) (mh : Bool) (pc1 addr1 b1 : Nat) (st1 : Bool)
        (pc2 addr2 b2 : Nat) (st2 : Bool) (s1 : cache_state hawk_ext) (tr1 : List dcall_t),
      0 < s.sets → s.tags.length = s.sets * s.ways →
      addr1 < 2 ^ 64 → 3 ≤ s.idx_shift →
      addr2 >>> s.idx_shift = addr1 >>> s.idx_shift →
      cache_sim_access hawkeye_check_tag hawkeye_victimize set_dirty s mh pc1 addr1 b1
          st1 = some (s1, tr1) →
      ∃ s2, cache_sim_access hawkeye_check_tag hawkeye_victimize set_dirty s1 mh pc2
          addr2 b2 st2 = some (s2, []) ∧
        ((hawkeye_check_tag (bump_access s1 b2 st2) pc2 addr2).2).isSome = true ∧
        s2.stats.read_misses = s1.stats.read_misses ∧
        s2.stats.write_misses = s1.stats.write_misses) ∧
    (∀ (s : cache_state (List (Nat × Nat))) (mh : Bool) (pc1 addr1 b1 : Nat) (st1 : Bool)
        (pc2 addr2 b2 : Nat) (st2 : Bool) (s1 : cache_state (List (Nat × Nat)))
        (tr1 : List dcall_t),
      addr2 >>> s.idx_shift = addr1 >>> s.idx_shift →
      cache_sim_access fa_check_tag fa_victimize fa_mark_dirty s mh pc1 addr1 b1 st1 =
        some (s1, tr1) →
      ∃ s2, cache_sim_access fa_check_tag fa_victimize fa_mark_dirty s1 mh pc2 addr2 b2
          st2 = some (s2, []) ∧
        ((fa_check_tag (bump_access s1 b2 st2) pc2 addr2).2).isSome = true ∧
        s2.stats.read_misses = s1.stats.read_misses ∧
        s2.stats.write_misses = s1.stats.write_misses) := by
  refine ⟨?_, ?_, ?_, ?_⟩
  · intro s mh pc1 addr1 b1 st1 pc2 addr2 b2 st2 s1 tr1 hsets hlen haddr hsh hsame hacc1
    exact second_access_same_line_generic base_check_tag cache_sim_victimize
      (fun _ => True) base_check_tag_spec (fun _ _ _ => rfl) (fun _ _ _ _ => trivial)
      (fun _ _ _ _ _ => trivial) (fun t pc a r _ h => cache_sim_victimize_spec t pc a r h)
      s mh pc1 addr1 b1 st1 pc2 addr2 b2 st2 s1 tr1 trivial hsets hlen haddr hsh hsame hacc1
  · intro s mh pc1 addr1 b1 st1 pc2 addr2 b2 st2 s1 tr1 hcur hsets hlen haddr hsh hsame hacc1
    exact second_access_same_line_generic base_check_tag linear_evict_victimize
      (fun t => ∀ e ∈ t.ext, e.2 < t.ways) base_check_tag_spec (fun _ _ _ => rfl)
      (fun _ _ _ hq => hq)
      (fun t t' hext hways hq e he => by rw [hways]; exact hq e (by rw [← hext]; exact he))
      (fun t pc a r hq h => linear_evict_victimize_spec t pc a r hq h)
      s mh pc1 addr1 b1 st1 pc2 addr2 b2 st2 s1 tr1 hcur hsets hlen haddr hsh hsame hacc1
  · intro s mh pc1 addr1 b1 st1 pc2 addr2 b2 st2 s1 tr1 hsets hlen haddr hsh hsame hacc1
    exact second_access_same_line_generic hawkeye_check_tag hawkeye_victimize
      (fun _ => True) hawkeye_check_tag_spec (fun _ _ _ => rfl) (fun _ _ _ _ => trivial)
      (fun _ _ _ _ _ => trivial) (fun t pc a r _ h => hawkeye_victimize_spec t pc a r h)
      s mh pc1 addr1 b1 st1 pc2 addr2 b2 st2 s1 tr1 trivial hsets hlen haddr hsh hsame hacc1
  · intro s mh pc1 addr1 b1 st1 pc2 addr2 b2 st2 s1 tr1 hsame hacc1
    obtain ⟨h1sh, hpres⟩ := fa_access_installs_key s mh pc1 addr1 b1 st1 s1 tr1 hacc1
    refine fa_access_hit_of_present s1 mh pc2 addr2 b2 st2 ?_
    rw [h1sh, hsame]
    exact hpres

/-- C5 witness: on a fresh cache of each of the four policies, after one read
of address 0, a same-line second access (address 4) hits with an empty trace
and unchanged miss counters. -/
theorem second_access_same_line_hits_witness :
    (∃ s2, cache_sim_access base_check_tag cache_sim_victimize set_dirty c5_rand_s1 false
        1 4 8 true = some (s2, []) ∧
      ((base_check_tag (bump_access c5_rand_s1 8 true) 1 4).2).isSome = true ∧
      s2.stats.read_misses = c5_rand_s1.stats.read_misses ∧
      s2.stats.write_misses = c5_rand_s1.stats.write_misses) ∧
    (∃ s2, cache_sim_access base_check_tag linear_evict_victimize set_dirty c5_lin_s1
        false 1 4 8 true = some (s2, []) ∧
      ((base_check_tag (bump_access c5_lin_s1 8 true) 1 4).2).isSome = true ∧
      s2.stats.read_misses = c5_lin_s1.stats.read_misses ∧
      s2.stats.write_misses = c5_lin_s1.stats.write_misses) ∧
    (∃ s2, cache_sim_access hawkeye_check_tag hawkeye_victimize set_dirty c5_hawk_s1
        false 6 4 4 false = some (s2, []) ∧
      ((hawkeye_check_tag (bump_access c5_hawk_s1 4 false) 6 4).2).isSome = true ∧
      s2.stats.read_misses = c5_hawk_s1.stats.read_misses ∧
      s2.stats.write_misses = c5_hawk_s1.stats.write_misses) ∧
    (∃ s2, cache_sim_access fa_check_tag fa_victimize fa_mark_dirty c5_fa_s1 false
        1 4 8 true = some (s2, []) ∧
      ((fa_check_tag (bump_access c5_fa_s1 8 true) 1 4).2).isSome = true ∧
      s2.stats.read_misses = c5_fa_s1.stats.read_misses ∧
      s2.stats.write_misses = c5_fa_s1.stats.write_misses) :=
  ⟨second_access_same_line_hits.1 c5_rand false 0 0 8 false 1 4 8 true c5_rand_s1
      ((cache_sim_access base_check_tag cache_sim_victimize set_dirty c5_rand false 0 0 8
          false).getD (c5_rand, [])).2
      (by decide) (by decide) (by decide) (by decide) (by decide) rfl,
   second_access_same_line_hits.2.1 c5_lin false 0 0 8 false 1 4 8 true c5_lin_s1
      ((cache_sim_access base_check_tag linear_evict_victimize set_dirty c5_lin false 0 0 8
          false).getD (c5_lin, [])).2
      (by simp [c5_lin, cache_sim_init]) (by decide) (by decide) (by decide) (by decide)
      (by decide) rfl,
   second_access_same_line_hits.2.2.1 c5_hawk false 5 0 4 false 6 4 4 false c5_hawk_s1
      ((cache_sim_access hawkeye_check_tag hawkeye_victimize set_dirty c5_hawk false 5 0 4
          false).getD (c5_hawk, [])).2
      (by decide) (by decide) (by decide) (by decide) (by decide) rfl,
   second_access_same_line_hits.2.2.2 c5_fa false 0 0 8 false 1 4 8 true c5_fa_s1
      ((cache_sim_access fa_check_tag fa_victimize fa_mark_dirty c5_fa false 0 0 8
          false).getD (c5_fa, [])).2
      (by decide) rfl⟩


/-- Setting DIRTY leaves the VALID bit alone. -/
theorem testBit63_or_dirty (x : Nat) : (x ||| DIRTY).testBit 63 = x.testBit 63 := by
  rw [Nat.testBit_or]
  have h : DIRTY.testBit 63 = false := by decide
  rw [h, Bool.or_false]

/-- Setting DIRTY leaves the tag payload alone. -/
theorem payload_or_dirty (x : Nat) : tag_payload (x ||| DIRTY) = tag_payload x := by
  apply Nat.eq_of_testBit_eq
  intro i
  simp only [tag_payload, Nat.testBit_and, Nat.testBit_or, not64, Nat.testBit_xor,
    Nat.testBit_two_pow_sub_one, VALID, DIRTY, Nat.testBit_two_pow]
  by_cases h : (62 : Nat) = i
  · subst h
    simp
  · simp [h]

/-- A clean tag word built from a sub-2^62 line address has that address as payload. -/
theorem payload_clean (x : Nat) (hx : x < 2 ^ 62) : tag_payload (x ||| VALID) = x := by
  apply Nat.eq_of_testBit_eq
  intro i
  simp only [tag_payload, Nat.testBit_and, Nat.testBit_or, not64, Nat.testBit_xor,
    Nat.testBit_two_pow_sub_one, VALID, DIRTY, Nat.testBit_two_pow]
  by_cases h63 : (63 : Nat) = i
  · subst h63
    simp [Nat.testBit_lt_two_pow (show x < 2 ^ 63 from lt_trans hx (by norm_num))]
  · by_cases h62 : (62 : Nat) = i
    · subst h62
      simp [Nat.testBit_lt_two_pow hx]
    · by_cases h64 : i < 64
      · simp [h63, h62, h64]
      · simp only [h63, h62, h64]
        simp [Nat.testBit_lt_two_pow (show x < 2 ^ i from lt_of_lt_of_le hx
          (Nat.pow_le_pow_right (by decide) (by omega)))]

/-- A valid tag word masked by `~DIRTY` is its payload with the VALID bit back on. -/
theorem valid_masked_decomp (x : Nat) (hvx : x.testBit 63 = true) :
    x &&& not64 DIRTY = tag_payload x ||| VALID := by
  apply Nat.eq_of_testBit_eq
  intro i
  simp only [tag_payload, Nat.testBit_and, Nat.testBit_or, not64, Nat.testBit_xor,
    Nat.testBit_two_pow_sub_one, VALID, DIRTY, Nat.testBit_two_pow]
  by_cases h63 : (63 : Nat) = i
  · subst h63
    simp [hvx]
  · by_cases h62 : (62 : Nat) = i
    · subst h62
      simp
    · by_cases h64 : i < 64 <;> simp [h63, h62, h64]

/-- Slot positions `set * ways + way` are injective in the (set, way) pair. -/
theorem set_way_inj (w a i b j : Nat) (hi : i < w) (hj : j < w)
    (h : a * w + i = b * w + j) : a = b ∧ i = j := by
  rcases Nat.lt_trichotomy a b with hab | hab | hab
  · exfalso
    have h1 : a * w + w ≤ b * w := by
      calc a * w + w = (a + 1) * w := (Nat.succ_mul a w).symm
        _ ≤ b * w := Nat.mul_le_mul_right w hab
    have h3 : a * w + (w + j) ≤ b * w + j := by
      rw [← Nat.add_assoc]
      exact Nat.add_le_add_right h1 j
    rw [← h] at h3
    have h4 : w + j ≤ i := Nat.le_of_add_le_add_left h3
    omega
  · subst hab
    exact ⟨rfl, Nat.add_left_cancel h⟩
  · exfalso
    have h1 : b * w + w ≤ a * w := by
      calc b * w + w = (b + 1) * w := (Nat.succ_mul b w).symm
        _ ≤ a * w := Nat.mul_le_mul_right w hab
    have h3 : b * w + (w + i) ≤ a * w + i := by
      rw [← Nat.add_assoc]
      exact Nat.add_le_add_right h1 i
    rw [h] at h3
    have h4 : w + i ≤ j := Nat.le_of_add_le_add_left h3
    omega

/-- A slot position of an in-range set and way is inside the tag array. -/
theorem slot_lt (sets ways set w len : Nat) (hset : set < sets) (hw : w < ways)
    (hlen : len = sets * ways) : set * ways + w < len := by
  rw [hlen]
  calc set * ways + w < (set + 1) * ways := by rw [Nat.succ_mul]; omega
    _ ≤ sets * ways := Nat.mul_le_mul_right _ hset

/-- The DIRTY-bit write preserves the uniqueness invariant. -/
theorem tags_ok_set_dirty (sets ways : Nat) (l : List Nat) (p : Nat)
    (h : tags_ok sets ways l) :
    tags_ok sets ways (l.set p (l.getD p 0 ||| DIRTY)) := by
  intro set hset i hi j hj hij hv1 hv2
  have e1 : ∀ k, (l.set p (l.getD p 0 ||| DIRTY)).getD k 0 = l.getD k 0 ∨
      (l.set p (l.getD p 0 ||| DIRTY)).getD k 0 = l.getD k 0 ||| DIRTY := by
    intro k
    by_cases hpk : p = k
    · subst hpk
      by_cases hp : p < l.length
      · right
        rw [getD_set_self _ _ _ _ hp]
      · left
        rw [List.set_eq_of_length_le (le_of_not_lt hp)]
    · left
      rw [getD_set_ne _ _ _ _ _ hpk]
  rcases e1 (set * ways + i) with hei | hei <;> rcases e1 (set * ways + j) with hej | hej <;>
    rw [hei] at hv1 ⊢ <;> rw [hej] at hv2 ⊢ <;>
    [skip; rw [payload_or_dirty]; rw [payload_or_dirty]; rw [payload_or_dirty, payload_or_dirty]] <;>
    first
    | exact h set hset i hi j hj hij hv1 hv2
    | (rw [testBit63_or_dirty] at hv1 hv2 <;> exact h set hset i hi j hj hij hv1 hv2)
    | (rw [testBit63_or_dirty] at hv1; exact h set hset i hi j hj hij hv1 hv2)
    | (rw [testBit63_or_dirty] at hv2; exact h set hset i hi j hj hij hv1 hv2)

/-- Installing a fresh line into a set where the scan just missed preserves the uniqueness invariant. -/
theorem tags_ok_set_new (sets ways : Nat) (l : List Nat) (idx way line : Nat)
    (hok : tags_ok sets ways l) (hlen : l.length = sets * ways)
    (hidx : idx < sets) (hway : way < ways) (hline : line < 2 ^ 62)
    (hmiss : ∀ i, i < ways →
      (line ||| VALID) ≠ l.getD (idx * ways + i) 0 &&& not64 DIRTY) :
    tags_ok sets ways (l.set (idx * ways + way) (line ||| VALID)) := by
  have hplen : idx * ways + way < l.length := slot_lt sets ways idx way l.length hidx hway hlen
  intro set hset i hi j hj hij hv1 hv2
  by_cases h1 : idx * ways + way = set * ways + i
  · obtain ⟨his, hwi⟩ := set_way_inj ways idx way set i hway hi h1
    have h2 : idx * ways + way ≠ set * ways + j := by
      intro h2
      obtain ⟨-, hwj⟩ := set_way_inj ways idx way set j hway hj h2
      exact hij (hwi.symm.trans hwj)
    rw [← h1, getD_set_self _ _ _ _ hplen] at hv1 ⊢
    rw [getD_set_ne _ _ _ _ _ h2] at hv2 ⊢
    rw [payload_clean line hline]
    intro hpayeq
    apply hmiss j hj
    rw [his]
    rw [valid_masked_decomp _ hv2, ← hpayeq]
  · rw [getD_set_ne _ _ _ _ _ h1] at hv1 ⊢
    by_cases h2 : idx * ways + way = set * ways + j
    · obtain ⟨hjs, hwj⟩ := set_way_inj ways idx way set j hway hj h2
      rw [← h2, getD_set_self _ _ _ _ hplen] at hv2 ⊢
      rw [payload_clean line hline]
      intro hpayeq
      apply hmiss i hi
      rw [hjs]
      rw [valid_masked_decomp _ hv1, hpayeq]
    · rw [getD_set_ne _ _ _ _ _ h2] at hv2 ⊢
      exact hok set hset i hi j hj hij hv1 hv2

/-- One access preserves the uniqueness invariant, generically over the array-backed policy hooks. -/
theorem access_preserves_tags_ok {ε : Type}
    (check_tag : cache_state ε → Nat → Nat → cache_state ε × Option Nat)
    (victimize : cache_state ε → Nat → Nat → Option (cache_state ε × Nat))
    (Q : cache_state ε → Prop)
    (hck : ∀ t pc a, (check_tag t pc a).2 = cache_sim_check_tag t a ∧
        (check_tag t pc a).1.tags = t.tags ∧
        (check_tag t pc a).1.sets = t.sets ∧
        (check_tag t pc a).1.ways = t.ways ∧
        (check_tag t pc a).1.idx_shift = t.idx_shift)
    (hckQ : ∀ t pc a, Q t → Q (check_tag t pc a).1)
    (hQext : ∀ t t' : cache_state ε, t'.ext = t.ext → t'.ways = t.ways → Q t → Q t')
    (hvq : ∀ t pc a r, Q t → victimize t pc a = some r →
        r.1.sets = t.sets ∧ r.1.ways = t.ways ∧ r.1.idx_shift = t.idx_shift ∧ Q r.1 ∧
        ∃ way, way < t.ways ∧
          r.1.tags = t.tags.set (((a >>> t.idx_shift) &&& (t.sets - 1)) * t.ways + way)
            ((a >>> t.idx_shift) ||| VALID))
    (s : cache_state ε) (mh : Bool) (pc addr bytes : Nat) (store : Bool)
    (s1 : cache_state ε) (tr : List dcall_t)
    (hQ : Q s) (hsets : 0 < s.sets) (hlen : s.tags.length = s.sets * s.ways)
    (haddr : addr < 2 ^ 64) (hsh : 3 ≤ s.idx_shift)
    (htok : tags_ok s.sets s.ways s.tags)
    (hacc : cache_sim_access check_tag victimize set_dirty s mh pc addr bytes store =
      some (s1, tr)) :
    s1.sets = s.sets ∧ s1.ways = s.ways ∧ s1.idx_shift = s.idx_shift ∧
    s1.tags.length = s.tags.length ∧ Q s1 ∧ tags_ok s.sets s.ways s1.tags := by
  have hb := bump_access_fields s bytes store
  unfold cache_sim_access at hacc
  split at hacc
  next s2 p hct =>
    have hckb := hck (bump_access s bytes store) pc addr
    rw [hct] at hckb
    have h2tags : s2.tags = s.tags := hckb.2.1.trans hb.1
    have h2sets : s2.sets = s.sets := hckb.2.2.1.trans hb.2.1
    have h2ways : s2.ways = s.ways := hckb.2.2.2.1.trans hb.2.2.1
    have h2sh : s2.idx_shift = s.idx_shift := hckb.2.2.2.2.trans hb.2.2.2.1
    have hQ2 : Q s2 := by
      have hQb : Q (bump_access s bytes store) := hQext s _ hb.2.2.2.2.1 hb.2.2.1 hQ
      have h := hckQ (bump_access s bytes store) pc addr hQb
      rw [hct] at h
      exact h
    simp only [Option.some.injEq, Prod.mk.injEq] at hacc
    obtain ⟨hs1, -⟩ := hacc
    cases store
    · simp only [Bool.false_eq_true, if_false] at hs1
      subst hs1
      exact ⟨h2sets, h2ways, h2sh, by rw [h2tags], hQ2, by rw [h2tags]; exact htok⟩
    · simp only [if_true] at hs1
      subst hs1
      refine ⟨h2sets, h2ways, h2sh, ?_, ?_, ?_⟩
      · show (s2.tags.set p (s2.tags.getD p 0 ||| DIRTY)).length = s.tags.length
        rw [List.length_set, h2tags]
      · exact hQext s2 _ rfl rfl hQ2
      · show tags_ok s.sets s.ways (s2.tags.set p (s2.tags.getD p 0 ||| DIRTY))
        rw [h2tags]
        exact tags_ok_set_dirty s.sets s.ways s.tags p htok
  next s2 hct =>
    have hckb := hck (bump_access s bytes store) pc addr
    rw [hct] at hckb
    have hscan : cache_sim_check_tag (bump_access s bytes store) addr = none :=
      hckb.1.symm
    rw [cache_sim_check_tag_bump] at hscan
    have hmiss := (cache_sim_check_tag_eq_none s addr).mp hscan
    have h2tags : s2.tags = s.tags := hckb.2.1.trans hb.1
    have h2sets : s2.sets = s.sets := hckb.2.2.1.trans hb.2.1
    have h2ways : s2.ways = s.ways := hckb.2.2.2.1.trans hb.2.2.1
    have h2sh : s2.idx_shift = s.idx_shift := hckb.2.2.2.2.trans hb.2.2.2.1
    have hQ2 : Q s2 := by
      have hQb : Q (bump_access s bytes store) := hQext s _ hb.2.2.2.2.1 hb.2.2.1 hQ
      have h := hckQ (bump_access s bytes store) pc addr hQb
      rw [hct] at h
      exact h
    have hbm := bump_miss_fields s2 store
    have hQm : Q (bump_miss s2 store) := hQext s2 _ hbm.2.2.2.2 hbm.2.2.1 hQ2
    split at hacc
    next hvic => exact Option.noConfusion hacc
    next s4 victim hvic =>
    obtain ⟨h4sets, h4ways, h4sh, hQ4, way, hway, htags4⟩ :=
      hvq (bump_miss s2 store) pc addr (s4, victim) hQm hvic
    rw [hbm.2.2.1, h2ways] at hway
    rw [hbm.1, hbm.2.1, hbm.2.2.1, hbm.2.2.2.1, h2tags, h2sets, h2ways, h2sh] at htags4
    have h4sets' : s4.sets = s.sets := (h4sets.trans hbm.2.1).trans h2sets
    have h4ways' : s4.ways = s.ways := (h4ways.trans hbm.2.2.1).trans h2ways
    have h4sh' : s4.idx_shift = s.idx_shift := (h4sh.trans hbm.2.2.2.1).trans h2sh
    have hidx : (addr >>> s.idx_shift) &&& (s.sets - 1) < s.sets :=
      lt_of_le_of_lt Nat.and_le_right (by omega)
    have hline : addr >>> s.idx_shift < 2 ^ 62 := shifted_addr_lt addr s.idx_shift haddr hsh
    have hmiss' : ∀ i, i < s.ways →
        ((addr >>> s.idx_shift) ||| VALID) ≠
          s.tags.getD (((addr >>> s.idx_shift) &&& (s.sets - 1)) * s.ways + i) 0 &&&
            not64 DIRTY := hmiss
    have hnew : tags_ok s.sets s.ways
        (s.tags.set (((addr >>> s.idx_shift) &&& (s.sets - 1)) * s.ways + way)
          ((addr >>> s.idx_shift) ||| VALID)) :=
      tags_ok_set_new s.sets s.ways s.tags _ way _ htok hlen hidx hway hline hmiss'
    have hwb := wb_and_refill_fst_fields s4 victim mh addr
    have hQwb : Q (wb_and_refill s4 victim mh addr).1 :=
      hQext s4 _ hwb.1 hwb.2.2.2.1 hQ4
    cases store
    · simp only [Bool.false_eq_true, if_false, Option.some.injEq, Prod.mk.injEq] at hacc
      obtain ⟨hs1, -⟩ := hacc
      subst hs1
      refine ⟨hwb.2.2.1.trans h4sets', hwb.2.2.2.1.trans h4ways',
        hwb.2.2.2.2.2.trans h4sh', ?_, hQwb, ?_⟩
      · rw [hwb.2.1, htags4, List.length_set]
      · rw [hwb.2.1, htags4]
        exact hnew
    · simp only [if_true] at hacc
      split at hacc
      next s6 p2 hct2 =>
        have hck6 := hck (wb_and_refill s4 victim mh addr).1 pc addr
        rw [hct2] at hck6
        have h6tags : s6.tags = s4.tags := hck6.2.1.trans hwb.2.1
        have h6sets : s6.sets = s.sets := (hck6.2.2.1.trans hwb.2.2.1).trans h4sets'
        have h6ways : s6.ways = s.ways := (hck6.2.2.2.1.trans hwb.2.2.2.1).trans h4ways'
        have h6sh : s6.idx_shift = s.idx_shift :=
          (hck6.2.2.2.2.trans hwb.2.2.2.2.2).trans h4sh'
        have hQ6 : Q s6 := by
          have h := hckQ (wb_and_refill s4 victim mh addr).1 pc addr hQwb
          rw [hct2] at h
          exact h
        simp only [Option.some.injEq, Prod.mk.injEq] at hacc
        obtain ⟨hs1, -⟩ := hacc
        subst hs1
        refine ⟨h6sets, h6ways, h6sh, ?_, hQext s6 _ rfl rfl hQ6, ?_⟩
        · show (s6.tags.set p2 (s6.tags.getD p2 0 ||| DIRTY)).length = s.tags.length
          rw [List.length_set, h6tags, htags4, List.length_set]
        · show tags_ok s.sets s.ways (s6.tags.set p2 (s6.tags.getD p2 0 ||| DIRTY))
          rw [h6tags, htags4]
          exact tags_ok_set_dirty s.sets s.ways _ p2 hnew
      next hct2 => exact Option.noConfusion hacc

/-- Members of `map_insert` are the new pair or old members. -/
theorem mem_map_insert {α : Type} (m : List (Nat × α)) (k : Nat) (v : α)
    (e : Nat × α) (he : e ∈ map_insert m k v) : e = (k, v) ∨ e ∈ m := by
  induction m with
  | nil =>
    simp only [map_insert, List.mem_singleton] at he
    exact Or.inl he
  | cons a m ih =>
    by_cases h1 : k < a.1
    · simp only [map_insert, if_pos h1, List.mem_cons] at he
      rcases he with he | he | he
      · exact Or.inl he
      · exact Or.inr (List.mem_cons.mpr (Or.inl he))
      · exact Or.inr (List.mem_cons_of_mem a he)
    · by_cases h2 : k = a.1
      · simp only [map_insert, if_neg h1, if_pos h2, List.mem_cons] at he
        rcases he with he | he
        · exact Or.inl he
        · exact Or.inr (List.mem_cons_of_mem a he)
      · simp only [map_insert, if_neg h1, if_neg h2, List.mem_cons] at he
        rcases he with he | he
        · exact Or.inr (List.mem_cons.mpr (Or.inl he))
        · rcases ih he with h | h
          · exact Or.inl h
          · exact Or.inr (List.mem_cons_of_mem a h)

/-- `map_insert` keeps the map sorted. -/
theorem map_insert_wf {α : Type} (m : List (Nat × α)) (k : Nat) (v : α)
    (hm : map_wf m) : map_wf (map_insert m k v) := by
  induction m with
  | nil => simp [map_insert, map_wf]
  | cons a m ih =>
    rw [map_wf, List.pairwise_cons] at hm
    obtain ⟨ha, hmt⟩ := hm
    by_cases h1 : k < a.1
    · rw [map_wf, map_insert, if_pos h1]
      rw [List.pairwise_cons]
      refine ⟨?_, ?_⟩
      · intro b hb
        rcases List.mem_cons.mp hb with hb | hb
        · rw [hb]
          exact h1
        · exact lt_trans h1 (ha b hb)
      · rw [List.pairwise_cons]
        exact ⟨ha, hmt⟩
    · by_cases h2 : k = a.1
      · rw [map_wf, map_insert, if_neg h1, if_pos h2, List.pairwise_cons]
        exact ⟨fun b hb => h2 ▸ ha b hb, hmt⟩
      · rw [map_wf, map_insert, if_neg h1, if_neg h2, List.pairwise_cons]
        refine ⟨?_, ih hmt⟩
        intro b hb
        rcases mem_map_insert m k v b hb with hb | hb
        · rw [hb]
          omega
        · exact ha b hb

/-- `map_erase` yields a sublist. -/
theorem map_erase_sublist {α : Type} (m : List (Nat × α)) (k : Nat) :
    List.Sublist (map_erase m k) m := by
  induction m with
  | nil => simp [map_erase]
  | cons a m ih =>
    by_cases h : a.1 = k
    · rw [map_erase, if_pos h]
      exact (List.sublist_cons_self a m)
    · rw [map_erase, if_neg h]
      exact ih.cons₂ a

/-- `map_erase` keeps the map sorted. -/
theorem map_erase_wf {α : Type} (m : List (Nat × α)) (k : Nat) (hm : map_wf m) :
    map_wf (map_erase m k) :=
  List.Pairwise.sublist (map_erase_sublist m k) hm

/-- `map_update` keeps the map sorted (keys are untouched). -/
theorem map_update_wf {α : Type} (m : List (Nat × α)) (k : Nat) (f : α → α)
    (hm : map_wf m) : map_wf (map_update m k f) := by
  rw [map_update]
  refine List.Pairwise.map _ ?_ hm
  intro a b hab
  have hfa : (if a.1 = k then (a.1, f a.2) else a).1 = a.1 := by split <;> rfl
  have hfb : (if b.1 = k then (b.1, f b.2) else b).1 = b.1 := by split <;> rfl
  simpa [hfa, hfb] using hab

/-- The fully-associative victimize keeps the map sorted. -/
theorem fa_victimize_wf (t : cache_state (List (Nat × Nat))) (pc a : Nat)
    (r : cache_state (List (Nat × Nat)) × Nat) (hm : map_wf t.ext)
    (h : fa_victimize t pc a = some r) : map_wf r.1.ext := by
  by_cases hfull : t.ext.length = t.ways
  · by_cases hw : t.ways = 0
    · simp [fa_victimize, hfull, hw] at h
    · simp only [fa_victimize, if_pos hfull, if_neg hw, List.get?_eq_getElem?] at h
      rcases hget : t.ext[lfsr_next t.lfsr % t.ways]? with _ | e
      · rw [hget] at h
        exact Option.noConfusion h
      · rw [hget] at h
        simp only [Option.some.injEq] at h
        subst h
        exact map_insert_wf _ _ _ (map_erase_wf _ _ hm)
  · simp only [fa_victimize, if_neg hfull, Option.some.injEq] at h
    subst h
    exact map_insert_wf _ _ _ hm

/-- One fully-associative access keeps the map sorted. -/
theorem fa_access_preserves_wf (s : cache_state (List (Nat × Nat))) (mh : Bool)
    (pc addr bytes : Nat) (store : Bool)
    (s1 : cache_state (List (Nat × Nat))) (tr : List dcall_t)
    (hm : map_wf s.ext)
    (hacc : cache_sim_access fa_check_tag fa_victimize fa_mark_dirty s mh pc addr bytes
        store = some (s1, tr)) : map_wf s1.ext := by
  have hb := bump_access_fields s bytes store
  have hfa : ∀ (t : cache_state (List (Nat × Nat))) (p2 : Nat), fa_check_tag t p2 addr =
      (t, (map_find? t.ext (addr >>> t.idx_shift)).map (fun _ => addr >>> t.idx_shift)) :=
    fun t p2 => rfl
  unfold cache_sim_access at hacc
  split at hacc
  next s2 p hct =>
    have hs2 : s2 = bump_access s bytes store := by
      rw [hfa, Prod.mk.injEq] at hct
      exact hct.1.symm
    simp only [Option.some.injEq, Prod.mk.injEq] at hacc
    obtain ⟨hs1, -⟩ := hacc
    subst hs1
    subst hs2
    cases store
    · simp only [Bool.false_eq_true, if_false]
      rw [hb.2.2.2.2.1]
      exact hm
    · simp only [if_true]
      show map_wf (map_update (bump_access s bytes true).ext p (fun v => v ||| DIRTY))
      rw [hb.2.2.2.2.1]
      exact map_update_wf _ _ _ hm
  next s2 hct =>
    have hs2 : s2 = bump_access s bytes store := by
      rw [hfa, Prod.mk.injEq] at hct
      exact hct.1.symm
    have hbm := bump_miss_fields s2 store
    split at hacc
    next hvic => exact Option.noConfusion hacc
    next s4 victim hvic =>
    have hmm : map_wf (bump_miss s2 store).ext := by
      rw [hbm.2.2.2.2, hs2, hb.2.2.2.2.1]
      exact hm
    have hm4 : map_wf s4.ext := fa_victimize_wf (bump_miss s2 store) pc addr
      (s4, victim) hmm hvic
    have hwb := wb_and_refill_fst_fields s4 victim mh addr
    cases store
    · simp only [Bool.false_eq_true, if_false, Option.some.injEq, Prod.mk.injEq] at hacc
      obtain ⟨hs1, -⟩ := hacc
      subst hs1
      rw [hwb.1]
      exact hm4
    · simp only [if_true] at hacc
      split at hacc
      next s6 p2 hct2 =>
        have hs6 : s6 = (wb_and_refill s4 victim mh addr).1 := by
          rw [hfa, Prod.mk.injEq] at hct2
          exact hct2.1.symm
        simp only [Option.some.injEq, Prod.mk.injEq] at hacc
        obtain ⟨hs1, -⟩ := hacc
        subst hs1
        show map_wf (map_update s6.ext p2 (fun v => v ||| DIRTY))
        refine map_update_wf _ _ _ ?_
        rw [hs6, hwb.1]
        exact hm4
      next hct2 => exact Option.noConfusion hacc

/-- A whole run preserves the uniqueness invariant, generically over the array-backed policy hooks. -/
theorem run_preserves_tags_ok {ε : Type}
    (check_tag : cache_state ε → Nat → Nat → cache_state ε × Option Nat)
    (victimize : cache_state ε → Nat → Nat → Option (cache_state ε × Nat))
    (Q : cache_state ε → Prop)
    (hck : ∀ t pc a, (check_tag t pc a).2 = cache_sim_check_tag t a ∧
        (check_tag t pc a).1.tags = t.tags ∧
        (check_tag t pc a).1.sets = t.sets ∧
        (check_tag t pc a).1.ways = t.ways ∧
        (check_tag t pc a).1.idx_shift = t.idx_shift)
    (hckQ : ∀ t pc a, Q t → Q (check_tag t pc a).1)
    (hQext : ∀ t t' : cache_state ε, t'.ext = t.ext → t'.ways = t.ways → Q t → Q t')
    (hvq : ∀ t pc a r, Q t → victimize t pc a = some r →
        r.1.sets = t.sets ∧ r.1.ways = t.ways ∧ r.1.idx_shift = t.idx_shift ∧ Q r.1 ∧
        ∃ way, way < t.ways ∧
          r.1.tags = t.tags.set (((a >>> t.idx_shift) &&& (t.sets - 1)) * t.ways + way)
            ((a >>> t.idx_shift) ||| VALID))
    (mh : Bool) (l : List mem_access_t) :
    ∀ s s' : cache_state ε, (∀ a ∈ l, a.addr < 2 ^ 64) → Q s → 0 < s.sets →
      s.tags.length = s.sets * s.ways → 3 ≤ s.idx_shift →
      tags_ok s.sets s.ways s.tags →
      cache_sim_run check_tag victimize set_dirty mh s l = some s' →
      tags_ok s'.sets s'.ways s'.tags := by
  induction l with
  | nil =>
    intro s s' _ _ _ _ _ htok hrun
    simp only [cache_sim_run, Option.some.injEq] at hrun
    subst hrun
    exact htok
  | cons a l ih =>
    intro s s' hl hQ hsets hlen hsh htok hrun
    simp only [cache_sim_run] at hrun
    split at hrun
    next hacc => exact Option.noConfusion hrun
    next s1 tr hacc =>
    obtain ⟨h1sets, h1ways, h1sh, h1len, hQ1, htok1⟩ :=
      access_preserves_tags_ok check_tag victimize Q hck hckQ hQext hvq s mh
        a.pc a.addr a.bytes a.store s1 tr hQ hsets hlen
        (hl a (List.mem_cons_self a l)) hsh htok hacc
    exact ih s1 s' (fun b hb => hl b (List.mem_cons_of_mem a hb)) hQ1
      (by rw [h1sets]; exact hsets) (by rw [h1len, h1sets, h1ways]; exact hlen)
      (by rw [h1sh]; exact hsh) (by rw [h1sets, h1ways]; exact htok1) hrun

/-- A whole fully-associative run keeps the map sorted. -/
theorem fa_run_preserves_wf (mh : Bool) (l : List mem_access_t) :
    ∀ s s' : cache_state (List (Nat × Nat)), map_wf s.ext →
      cache_sim_run fa_check_tag fa_victimize fa_mark_dirty mh s l = some s' →
      map_wf s'.ext := by
  induction l with
  | nil =>
    intro s s' hm hrun
    simp only [cache_sim_run, Option.some.injEq] at hrun
    subst hrun
    exact hm
  | cons a l ih =>
    intro s s' hm hrun
    simp only [cache_sim_run] at hrun
    split at hrun
    next hacc => exact Option.noConfusion hrun
    next s1 tr hacc =>
    exact ih s1 s' (fa_access_preserves_wf s mh a.pc a.addr a.bytes a.store s1 tr hm hacc)
      hrun

/-- `assoc_set` keeps all stored values below `w` when the new value is. -/
theorem assoc_set_bound (m : List (Nat × Nat)) (k v w : Nat)
    (hm : ∀ e ∈ m, e.2 < w) (hv : v < w) : ∀ e ∈ assoc_set m k v, e.2 < w := by
  induction m with
  | nil =>
    intro e he
    simp only [assoc_set, List.mem_singleton] at he
    rw [he]
    exact hv
  | cons a m ih =>
    intro e he
    by_cases h : a.1 = k
    · rw [assoc_set, if_pos h] at he
      rcases List.mem_cons.mp he with he | he
      · rw [he]
        exact hv
      · exact hm e (List.mem_cons_of_mem a he)
    · rw [assoc_set, if_neg h] at he
      rcases List.mem_cons.mp he with he | he
      · rw [he]
        exact hm a (List.mem_cons_self a m)
      · exact ih (fun b hb => hm b (List.mem_cons_of_mem a hb)) e he

/-- The linear-evict victimize keeps every cursor below `ways`. -/
theorem linear_evict_victimize_curs (t : cache_state (List (Nat × Nat))) (pc a : Nat)
    (r : cache_state (List (Nat × Nat)) × Nat)
    (hq : ∀ e ∈ t.ext, e.2 < t.ways)
    (h : linear_evict_victimize t pc a = some r) :
    ∀ e ∈ r.1.ext, e.2 < r.1.ways := by
  by_cases hw : t.ways = 0
  · simp [linear_evict_victimize, hw] at h
  · simp only [linear_evict_victimize, if_neg hw, Option.some.injEq] at h
    subst h
    exact assoc_set_bound t.ext _ _ t.ways hq (Nat.mod_lt _ (Nat.pos_of_ne_zero hw))

/-- C3: for every sequence of access calls to a cache of any policy (random,
linear, Hawkeye, fully-associative), after each call the tag array satisfies:
within any one set, no two slots with the VALID bit set hold the same tag
payload — and for the fully-associative cache no two map entries share a key.
The array-backed policies start from any well-formed state whose tag array
already satisfies the invariant (a constructed cache does: all tags zero). -/
theorem valid_tags_unique_after_run :
    (∀ (mh : Bool) (l : List mem_access_t) (s s' : cache_state Unit),
      (∀ a ∈ l, a.addr < 2 ^ 64) → 0 < s.sets → s.tags.length = s.sets * s.ways →
      3 ≤ s.idx_shift → tags_ok s.sets s.ways s.tags →
      cache_sim_run base_check_tag cache_sim_victimize set_dirty mh s l = some s' →
      tags_ok s'.sets s'.ways s'.tags) ∧
    (∀ (mh : Bool) (l : List mem_access_t) (s s' : cache_state (List (Nat × Nat))),
      (∀ a ∈ l, a.addr < 2 ^ 64) → (∀ e ∈ s.ext, e.2 < s.ways) →
      0 < s.sets → s.tags.length = s.sets * s.ways →
      3 ≤ s.idx_shift → tags_ok s.sets s.ways s.tags →
      cache_sim_run base_check_tag linear_evict_victimize set_dirty mh s l = some s' →
      tags_ok s'.sets s'.ways s'.tags) ∧
    (∀ (mh : Bool) (l : List mem_access_t) (s s' : cache_state hawk_ext),
      (∀ a ∈ l, a.addr < 2 ^ 64) → 0 < s.sets → s.tags.length = s.sets * s.ways →
      3 ≤ s.idx_shift → tags_ok s.sets s.ways s.tags →
      cache_sim_run hawkeye_check_tag hawkeye_victimize set_dirty mh s l = some s' →
      tags_ok s'.sets s'.ways s'.tags) ∧
    (∀ (mh : Bool) (l : List mem_access_t) (s s' : cache_state (List (Nat × Nat))),
      map_wf s.ext →
      cache_sim_run fa_check_tag fa_victimize fa_mark_dirty mh s l = some s' →
      List.Pairwise (fun e1 e2 => e1.1 ≠ e2.1) s'.ext) := by
  refine ⟨?_, ?_, ?_, ?_⟩
  · intro mh l s s' hl hsets hlen hsh htok hrun
    exact run_preserves_tags_ok base_check_tag cache_sim_victimize (fun _ => True)
      base_check_tag_spec (fun _ _ _ _ => trivial) (fun _ _ _ _ _ => trivial)
      (fun t pc a r _ h => by
        obtain ⟨h1, h2, h3, way, hw, ht⟩ := cache_sim_victimize_spec t pc a r h
        exact ⟨h1, h2, h3, trivial, way, hw, ht⟩)
      mh l s s' hl trivial hsets hlen hsh htok hrun
  · intro mh l s s' hl hcur hsets hlen hsh htok hrun
    exact run_preserves_tags_ok base_check_tag linear_evict_victimize
      (fun t => ∀ e ∈ t.ext, e.2 < t.ways) base_check_tag_spec
      (fun _ _ _ hq => hq)
      (fun t t' hext hways hq e he => by rw [hways]; exact hq e (by rw [← hext]; exact he))
      (fun t pc a r hq h => by
        obtain ⟨h1, h2, h3, way, hw, ht⟩ := linear_evict_victimize_spec t pc a r hq h
        exact ⟨h1, h2, h3, linear_evict_victimize_curs t pc a r hq h, way, hw, ht⟩)
      mh l s s' hl hcur hsets hlen hsh htok hrun
  · intro mh l s s' hl hsets hlen hsh htok hrun
    exact run_preserves_tags_ok hawkeye_check_tag hawkeye_victimize (fun _ => True)
      hawkeye_check_tag_spec (fun _ _ _ _ => trivial) (fun _ _ _ _ _ => trivial)
      (fun t pc a r _ h => by
        obtain ⟨h1, h2, h3, way, hw, ht⟩ := hawkeye_victimize_spec t pc a r h
        exact ⟨h1, h2, h3, trivial, way, hw, ht⟩)
      mh l s s' hl trivial hsets hlen hsh htok hrun
  · intro mh l s s' hm hrun
    exact (fa_run_preserves_wf mh l s s' hm hrun).imp (fun h => ne_of_lt h)

/-- C3 witness: concrete two-access runs on fresh caches of each policy end in
states satisfying the uniqueness invariant. -/
theorem valid_tags_unique_after_run_witness :
    tags_ok c3_rand_final.sets c3_rand_final.ways c3_rand_final.tags ∧
    tags_ok c3_lin_final.sets c3_lin_final.ways c3_lin_final.tags ∧
    tags_ok c3_hawk_final.sets c3_hawk_final.ways c3_hawk_final.tags ∧
    List.Pairwise (fun e1 e2 => e1.1 ≠ e2.1) c3_fa_final.ext :=
  ⟨valid_tags_unique_after_run.1 false c3_l (cache_sim_init 2 2 8 ()) c3_rand_final
      (by decide) (by decide) (by decide) (by decide) (by decide) rfl,
   valid_tags_unique_after_run.2.1 false c3_l (cache_sim_init 1 2 8 []) c3_lin_final
      (by decide) (by decide) (by decide) (by decide) (by decide) (by decide) rfl,
   valid_tags_unique_after_run.2.2.1 false c3_l (hawkeye_init 1 2 8) c3_hawk_final
      (by decide) (by decide) (by decide) (by decide) (by decide) rfl,
   valid_tags_unique_after_run.2.2.2 false c3_l (cache_sim_init 1 8 8 []) c3_fa_final
      List.Pairwise.nil rfl⟩
